import Mathlib

/-!
Verification model of the sticker-extractor image pipeline
(`extractor-rust`: `color.rs`, `extractor.rs`, `main.rs`).

Numeric conventions used throughout the embedding:

* `u8`/`u32` machine integers are modelled as `ℕ` (with an explicit wrap
  modulo `2 ^ 32` at the one subtraction that can underflow).
* `f32` values are idealised as exact numbers.  Computations that stay inside
  the rationals are modelled over `ℚ` (so that concrete runs can be decided by
  the kernel); computations that can produce the IEEE special values
  `+inf`, `-inf` and `NaN` are modelled by the type `F` below, whose finite
  payload is an exact real.  The IEEE rules for the operations the source
  actually performs (addition, subtraction, multiplication, division,
  absolute value, ordering, float-to-integer casts) are spelled out case by
  case; every comparison involving `NaN` is false, `1/0 = +inf`,
  `0/0 = inf/inf = NaN`, and a float-to-`u8` cast saturates, sending `NaN`
  to `0`.
-/

/-- Model of an `f32` value: a finite real, an infinity, or `NaN`. -/
inductive F where
  | fin : ℝ → F
  | inf : F
  | neginf : F
  | nan : F

/-- IEEE addition on the `f32` model. -/
noncomputable def F.add : F → F → F
  | F.fin a, F.fin b => F.fin (a + b)
  | F.fin _, F.inf => F.inf
  | F.inf, F.fin _ => F.inf
  | F.inf, F.inf => F.inf
  | F.fin _, F.neginf => F.neginf
  | F.neginf, F.fin _ => F.neginf
  | F.neginf, F.neginf => F.neginf
  | F.inf, F.neginf => F.nan
  | F.neginf, F.inf => F.nan
  | F.nan, _ => F.nan
  | _, F.nan => F.nan

/-- IEEE negation on the `f32` model. -/
noncomputable def F.neg : F → F
  | F.fin a => F.fin (-a)
  | F.inf => F.neginf
  | F.neginf => F.inf
  | F.nan => F.nan

/-- IEEE subtraction on the `f32` model. -/
noncomputable def F.sub (a b : F) : F := F.add a (F.neg b)

open Classical in
/-- IEEE multiplication on the `f32` model; `inf * 0 = NaN`. -/
noncomputable def F.mul : F → F → F
  | F.fin a, F.fin b => F.fin (a * b)
  | F.fin a, F.inf => if a = 0 then F.nan else if 0 < a then F.inf else F.neginf
  | F.inf, F.fin b => if b = 0 then F.nan else if 0 < b then F.inf else F.neginf
  | F.fin a, F.neginf => if a = 0 then F.nan else if 0 < a then F.neginf else F.inf
  | F.neginf, F.fin b => if b = 0 then F.nan else if 0 < b then F.neginf else F.inf
  | F.inf, F.inf => F.inf
  | F.inf, F.neginf => F.neginf
  | F.neginf, F.inf => F.neginf
  | F.neginf, F.neginf => F.inf
  | F.nan, _ => F.nan
  | _, F.nan => F.nan

open Classical in
/-- IEEE division on the `f32` model; `x/0` is a signed infinity for finite
nonzero `x`, while `0/0` and `inf/inf` are `NaN`. -/
noncomputable def F.div : F → F → F
  | F.fin a, F.fin b =>
      if b = 0 then (if a = 0 then F.nan else if 0 < a then F.inf else F.neginf)
      else F.fin (a / b)
  | F.fin _, F.inf => F.fin 0
  | F.fin _, F.neginf => F.fin 0
  | F.inf, F.fin b => if 0 ≤ b then F.inf else F.neginf
  | F.neginf, F.fin b => if 0 ≤ b then F.neginf else F.inf
  | F.inf, F.inf => F.nan
  | F.inf, F.neginf => F.nan
  | F.neginf, F.inf => F.nan
  | F.neginf, F.neginf => F.nan
  | F.nan, _ => F.nan
  | _, F.nan => F.nan

/-- IEEE absolute value on the `f32` model. -/
noncomputable def F.abs : F → F
  | F.fin a => F.fin |a|
  | F.inf => F.inf
  | F.neginf => F.inf
  | F.nan => F.nan

/-- IEEE strict order on the `f32` model: any comparison with `NaN` is false. -/
def F.lt : F → F → Prop
  | F.fin a, F.fin b => a < b
  | F.fin _, F.inf => True
  | F.neginf, F.fin _ => True
  | F.neginf, F.inf => True
  | F.inf, _ => False
  | _, F.neginf => False
  | F.nan, _ => False
  | _, F.nan => False

/-- Rust `as u8` cast from a rational `f32` value: saturating truncation. -/
def toU8Q (q : ℚ) : ℕ :=
  if q ≤ 0 then 0 else if 255 ≤ q then 255 else (⌊q⌋).toNat

/-- Rust `as u8` cast from a finite real `f32` value. -/
noncomputable def toU8R (x : ℝ) : ℕ :=
  if x ≤ 0 then 0 else if 255 ≤ x then 255 else (⌊x⌋).toNat

/-- Rust `as u8` cast on the full `f32` model: saturates, and sends `NaN`
to `0`. -/
noncomputable def toU8F : F → ℕ
  | F.fin a => toU8R a
  | F.inf => 255
  | F.neginf => 0
  | F.nan => 0

/-- An 8 bit RGB triple (struct `RGB` in `color.rs`). -/
structure RGBN where
  r : ℕ
  g : ℕ
  b : ℕ
deriving DecidableEq, Repr

/-- A YUV triple with `f32` channels (struct `YUV` in `color.rs`). -/
structure YUVf where
  y : F
  u : F
  v : F

/-- RGB to YUV conversion, `impl From (and RGB) for YUV` in `color.rs`:
channels are divided by `255.0` and the BT.601 analog weights are applied.
The arithmetic is rational, so it is modelled exactly over `ℚ`. -/
def yuvOfRgb (p : RGBN) : ℚ × ℚ × ℚ :=
  let r : ℚ := (p.r : ℚ) / 255
  let g : ℚ := (p.g : ℚ) / 255
  let b : ℚ := (p.b : ℚ) / 255
  let y : ℚ := 0.299 * r + 0.587 * g + 0.114 * b
  (y, 0.492 * (b - y), 0.877 * (r - y))

/-- View of a rational YUV triple inside the `f32` model. -/
noncomputable def yuvFinOfQ (t : ℚ × ℚ × ℚ) : YUVf :=
  ⟨F.fin (t.1 : ℝ), F.fin (t.2.1 : ℝ), F.fin (t.2.2 : ℝ)⟩

/-- YUV to RGB conversion, `impl From (and YUV) for RGB` in `color.rs`,
on the `f32` model.  Note the green channel: the source computes
`value.y - 0.395 * value.u * 0.581 * value.v`, a product of the two chroma
terms rather than the BT.601 difference `y - 0.395 u - 0.581 v`. -/
noncomputable def rgbOfYuvF (t : YUVf) : RGBN :=
  let r := F.add t.y (F.mul (F.fin 1.14) t.v)
  let g := F.sub t.y (F.mul (F.mul (F.mul (F.fin 0.395) t.u) (F.fin 0.581)) t.v)
  let b := F.add t.y (F.mul (F.fin 2.033) t.u)
  ⟨toU8F (F.mul r (F.fin 255)), toU8F (F.mul g (F.fin 255)), toU8F (F.mul b (F.fin 255))⟩

/-- Rational specialisation of `rgbOfYuvF` (all channels finite rational);
agreement with the `f32` model is proved in `rgbOfYuvF_fin_q`. -/
def rgbOfYuvQ (t : ℚ × ℚ × ℚ) : RGBN :=
  let r : ℚ := t.1 + 1.14 * t.2.2
  let g : ℚ := t.1 - 0.395 * t.2.1 * 0.581 * t.2.2
  let b : ℚ := t.1 + 2.033 * t.2.1
  ⟨toU8Q (r * 255), toU8Q (g * 255), toU8Q (b * 255)⟩

/-- RGB to XYZ conversion (`impl From (and RGB) for XYZ` in `color.rs`):
sRGB gamma expansion with break at `0.04045`, then the D65 matrix. -/
noncomputable def xyzOfRgb (p : RGBN) : ℝ × ℝ × ℝ :=
  let vr : ℝ := (p.r : ℝ) / 255
  let vg : ℝ := (p.g : ℝ) / 255
  let vb : ℝ := (p.b : ℝ) / 255
  let vr : ℝ := if vr > 0.04045 then ((vr + 0.055) / 1.055) ^ (2.4 : ℝ) else vr / 12.92
  let vg : ℝ := if vg > 0.04045 then ((vg + 0.055) / 1.055) ^ (2.4 : ℝ) else vg / 12.92
  let vb : ℝ := if vb > 0.04045 then ((vb + 0.055) / 1.055) ^ (2.4 : ℝ) else vb / 12.92
  let vr := vr * 100
  let vg := vg * 100
  let vb := vb * 100
  (vr * 0.4124 + vg * 0.3576 + vb * 0.1805,
   vr * 0.2126 + vg * 0.7152 + vb * 0.0722,
   vr * 0.0193 + vg * 0.1192 + vb * 0.9505)

/-- Reference white used by the LAB conversions in `color.rs`. -/
def REFERENCE_X : ℝ := 109.850

/-- Reference white used by the LAB conversions in `color.rs`. -/
def REFERENCE_Y : ℝ := 100.000

/-- Reference white used by the LAB conversions in `color.rs`. -/
def REFERENCE_Z : ℝ := 35.585

/-- XYZ to LAB conversion (`impl From (and XYZ) for LAB` in `color.rs`). -/
noncomputable def labOfXyz (t : ℝ × ℝ × ℝ) : ℝ × ℝ × ℝ :=
  let vx := t.1 / REFERENCE_X
  let vy := t.2.1 / REFERENCE_Y
  let vz := t.2.2 / REFERENCE_Z
  let vx := if vx > 0.008856 then vx ^ ((1 : ℝ) / 3) else 7.787 * vx + 16 / 116
  let vy := if vy > 0.008856 then vy ^ ((1 : ℝ) / 3) else 7.787 * vy + 16 / 116
  let vz := if vz > 0.008856 then vz ^ ((1 : ℝ) / 3) else 7.787 * vz + 16 / 116
  (116 * vy - 16, 500 * (vx - vy), 200 * (vy - vz))

/-- LAB to XYZ conversion (`impl From (and LAB) for XYZ` in `color.rs`). -/
noncomputable def xyzOfLab (t : ℝ × ℝ × ℝ) : ℝ × ℝ × ℝ :=
  let vy := (t.1 + 16) / 116
  let vx := t.2.1 / 500 + vy
  let vz := vy - t.2.2 / 200
  let vy := if vy ^ (3 : ℕ) > 0.008856 then vy ^ (3 : ℕ) else (vy - 16 / 116) / 7.787
  let vx := if vx ^ (3 : ℕ) > 0.008856 then vx ^ (3 : ℕ) else (vx - 16 / 116) / 7.787
  let vz := if vz ^ (3 : ℕ) > 0.008856 then vz ^ (3 : ℕ) else (vz - 16 / 116) / 7.787
  (vx * REFERENCE_X, vy * REFERENCE_Y, vz * REFERENCE_Z)

/-- XYZ to RGB conversion (`impl From (and XYZ) for RGB` in `color.rs`). -/
noncomputable def rgbOfXyz (t : ℝ × ℝ × ℝ) : RGBN :=
  let vx := t.1 / 100
  let vy := t.2.1 / 100
  let vz := t.2.2 / 100
  let vr := vx * 3.2406 + vy * (-1.5372) + vz * (-0.4986)
  let vg := vx * (-0.9689) + vy * 1.8758 + vz * 0.0415
  let vb := vx * 0.0557 + vy * (-0.2040) + vz * 1.0570
  let vr := if vr > 0.0031308 then 1.055 * vr ^ ((1 : ℝ) / 2.4) - 0.055 else vr * 12.92
  let vg := if vg > 0.0031308 then 1.055 * vg ^ ((1 : ℝ) / 2.4) - 0.055 else vg * 12.92
  let vb := if vb > 0.0031308 then 1.055 * vb ^ ((1 : ℝ) / 2.4) - 0.055 else vb * 12.92
  ⟨toU8R (vr * 255), toU8R (vg * 255), toU8R (vb * 255)⟩

/-- The tagged color union (`enum SomeColor` inside struct `Color`,
`color.rs`). -/
inductive Colorv where
  | rgb : RGBN → Colorv
  | yuv : YUVf → Colorv
  | lab : ℝ × ℝ × ℝ → Colorv

/-- Method `Color::yuv` of `color.rs`: conversion of any stored variant to
YUV (the LAB variant goes through XYZ and RGB first, as in the source). -/
noncomputable def colorYuv : Colorv → YUVf
  | Colorv.rgb p => yuvFinOfQ (yuvOfRgb p)
  | Colorv.yuv t => t
  | Colorv.lab l => yuvFinOfQ (yuvOfRgb (rgbOfXyz (xyzOfLab l)))

/-- Method `Color::lab` of `color.rs`: conversion of any stored variant to
LAB (the YUV variant goes through RGB and XYZ first, as in the source). -/
noncomputable def colorLab : Colorv → ℝ × ℝ × ℝ
  | Colorv.rgb p => labOfXyz (xyzOfRgb p)
  | Colorv.yuv t => labOfXyz (xyzOfRgb (rgbOfYuvF t))
  | Colorv.lab l => l

/-- Range bound `YUV_MAX_Y` from `color.rs`. -/
def YUV_MAX_Y : ℝ := 1.0

/-- Range bound `YUV_MAX_U` from `color.rs`. -/
def YUV_MAX_U : ℝ := 0.436

/-- Range bound `YUV_MAX_V` from `color.rs`. -/
def YUV_MAX_V : ℝ := 0.615

open Classical in
/-- Constructor `YUV::new` from `color.rs`: four range checks, each an IEEE
`f32` comparison (hence false whenever the tested channel is `NaN`). -/
noncomputable def yuvNew (y u v : F) : Except String YUVf :=
  if F.lt y (F.fin 0) then Except.error "y cannot be negative"
  else if F.lt (F.fin YUV_MAX_Y) y then Except.error "y cannot be above the max"
  else if F.lt (F.fin YUV_MAX_U) (F.abs u) then Except.error "u cannot be above the max"
  else if F.lt (F.fin YUV_MAX_V) (F.abs v) then Except.error "v cannot be above the max"
  else Except.ok ⟨y, u, v⟩

/-- Decidable equality for `Except` results (needed to run concrete
pipeline executions inside `decide`). -/
instance {e a : Type} [DecidableEq e] [DecidableEq a] : DecidableEq (Except e a) := fun x y =>
  match x, y with
  | Except.ok u, Except.ok w =>
    if h : u = w then isTrue (by rw [h]) else isFalse (by simp [h])
  | Except.error u, Except.error w =>
    if h : u = w then isTrue (by rw [h]) else isFalse (by simp [h])
  | Except.ok _, Except.error _ => isFalse (by simp)
  | Except.error _, Except.ok _ => isFalse (by simp)

/-- Pixel coordinate (struct `XY` in `extractor.rs`; `u32` fields). -/
structure XY where
  x : ℕ
  y : ℕ
deriving DecidableEq, Repr

/-- Method `XY::distance` from `extractor.rs`: Euclidean distance computed in
`f32`; always finite and nonnegative for pixel coordinates, so it is modelled
as a real number. -/
noncomputable def XY.distR (a b : XY) : ℝ :=
  Real.sqrt (((a.x : ℝ) - (b.x : ℝ)) ^ (2 : ℕ) + ((a.y : ℝ) - (b.y : ℝ)) ^ (2 : ℕ))

/-- Rectangle (struct `Area` in `extractor.rs`). -/
structure Area where
  top : ℕ
  left : ℕ
  width : ℕ
  height : ℕ
deriving DecidableEq, Repr

/-- Method `Area::right`: `left + width - 1` (inclusive right edge). -/
def Area.right (a : Area) : ℕ := a.left + a.width - 1

/-- Method `Area::bottom`: `top + height - 1` (inclusive bottom edge). -/
def Area.bottom (a : Area) : ℕ := a.top + a.height - 1

/-- Method `Area::center`: integer midpoint, `u32` division by two. -/
def Area.center (a : Area) : XY := ⟨a.left + a.width / 2, a.top + a.height / 2⟩

/-- Method `Area::contains`: closed-rectangle membership test. -/
def Area.contains (a : Area) (p : XY) : Bool :=
  decide (a.left ≤ p.x ∧ p.x ≤ a.right ∧ a.top ≤ p.y ∧ p.y ≤ a.bottom)

/-- Method `Area::new_from_pixels`: bounding rectangle of a nonempty pixel
set, with the inclusive `right - left + 1` width convention; `None` on an
empty set. -/
def Area.newFromPixels (pixels : Finset XY) : Option Area :=
  if h : pixels.Nonempty then
    let top := (pixels.image XY.y).min' (h.image _)
    let bottom := (pixels.image XY.y).max' (h.image _)
    let left := (pixels.image XY.x).min' (h.image _)
    let right := (pixels.image XY.x).max' (h.image _)
    some ⟨top, left, right - left + 1, bottom - top + 1⟩
  else none

/-- An RGBA pixel of the image buffer. -/
structure PX where
  r : ℕ
  g : ℕ
  b : ℕ
  a : ℕ
deriving DecidableEq, Repr

/-- Constant `TRANSPARENT` from `extractor.rs`: `Rgba([0, 0, 0, 0])`. -/
def TRANSPARENT : PX := ⟨0, 0, 0, 0⟩

/-- Method `Rgba::to_rgb`: drop the alpha channel. -/
def PX.toRgb (p : PX) : RGBN := ⟨p.r, p.g, p.b⟩

/-- An image: a width, a height, and a pixel buffer (`RgbaImage`).
`pix x y` is meaningful only for `x < width` and `y < height`; the embedding
of `get_pixel` checks bounds exactly where the source library would have
panicked. -/
structure Img where
  width : ℕ
  height : ℕ
  pix : ℕ → ℕ → PX

/-- Worklist loop of `flood_fill` from `extractor.rs`, instrumented: besides
the visited set it returns the list of points at which the predicate was
evaluated, in order (one entry per evaluation).  The `Vec` of the source is
used as a stack (`push`/`pop` at the same end), modelled by a list whose head
is the top.  `none` models a panic: `get_pixel` on an out-of-bounds
coordinate.  Fuel only decreases on loop iterations; the fuel passed by
`floodFill` exceeds the largest possible number of iterations, so `none` is
never caused by fuel exhaustion. -/
def floodFillAux (img : Img) (p : XY → RGBN → Bool) :
    ℕ → List XY → Finset XY → List XY → Option (Finset XY × List XY)
  | 0, _, _, _ => none
  | _ + 1, [], pixels, trace => some (pixels, trace)
  | fuel + 1, xy :: queue, pixels, trace =>
    if xy ∈ pixels then
      floodFillAux img p fuel queue pixels trace
    else if xy.x < img.width ∧ xy.y < img.height then
      let color := (img.pix xy.x xy.y).toRgb
      let trace := trace ++ [xy]
      if p xy color then
        let pixels := insert xy pixels
        let q1 := if 0 < xy.x then XY.mk (xy.x - 1) xy.y :: queue else queue
        let q2 := if 0 < xy.y then XY.mk xy.x (xy.y - 1) :: q1 else q1
        let q3 := if xy.x < img.width - 1 then XY.mk (xy.x + 1) xy.y :: q2 else q2
        let q4 := if xy.y < img.height - 1 then XY.mk xy.x (xy.y + 1) :: q3 else q3
        floodFillAux img p fuel q4 pixels trace
      else
        floodFillAux img p fuel queue pixels trace
    else none

/-- Function `flood_fill` from `extractor.rs`.  Each iteration pops one
worklist entry; entries are pushed only when a pixel is first inserted (at
most four per insertion, plus the seed), and at most `width * height` pixels
can be inserted, so `4 * width * height + 2` fuel always outlasts the loop. -/
def floodFill (img : Img) (xy : XY) (p : XY → RGBN → Bool) :
    Option (Finset XY × List XY) :=
  floodFillAux img p (4 * img.width * img.height + 2) [xy] ∅ []

/-- Constant `MARKER_SCAN_STEP` from `extractor.rs`. -/
def MARKER_SCAN_STEP : ℚ := 0.01

/-- Constant `MARKER_SCAN_STEPS` from `extractor.rs`. -/
def MARKER_SCAN_STEPS : ℕ := 30

/-- Constant `BACKGROUND_ANALYSIS_STEPS` from `extractor.rs`. -/
def BACKGROUND_ANALYSIS_STEPS : ℕ := 10

/-- Constant `MARKER_THRESHOLD` from `extractor.rs`. -/
def MARKER_THRESHOLD : ℚ := 0.0001

/-- Constant `SNAP_STICKERS_THRESHOLD` from `extractor.rs`. -/
def SNAP_STICKERS_THRESHOLD : ℚ := 0.2

/-- Enum `Corner` from `extractor.rs`. -/
inductive Corner where
  | topLeft : Corner
  | topRight : Corner
  | bottomLeft : Corner
  | bottomRight : Corner
deriving DecidableEq, Repr

/-- Wrapping `u32` arithmetic for the seed coordinates
`width - 1 - step_x_i * step_x` (release-mode Rust wraps on underflow). -/
def wrap32 (n : ℤ) : ℕ := (n.emod (2 ^ 32)).toNat

/-- Closure `match_color` of `Markers::find_marker`: the pixel color is
converted to YUV and tested against the brightness thresholds.  The pixel
always arrives as the RGB variant, so the conversion is the exact rational
`yuvOfRgb`. -/
def markerMatchColor (p : RGBN) : Bool :=
  let t := yuvOfRgb p
  decide (0.7 < t.1 ∧ |t.2.1| < 0.15 ∧ |t.2.2| < 0.15)

/-- Function `is_at_least_this_much_of_image` from `extractor.rs`. -/
def isAtLeastThisMuchOfImage (pixels : ℕ) (img : Img) (threshold : ℚ) : Bool :=
  decide ((pixels : ℚ) ≥ ((img.width * img.height : ℕ) : ℚ) * threshold)

/-- Scan loop of `Markers::find_marker`: the outer index walks `step_x_i`,
the inner one `step_y_i`, exactly as the nested `for` loops of the source;
the list argument enumerates the remaining `(step_x_i, step_y_i)` pairs.
`none` models a panic inside `flood_fill` (out-of-bounds seed). -/
def findMarkerGo (img : Img) (corner : Corner) (stepX stepY : ℕ) :
    List (ℕ × ℕ) → Option (Except String Area)
  | [] => some (Except.error "not found")
  | (sxi, syi) :: rest =>
    let x : ℕ :=
      match corner with
      | Corner.topLeft => sxi * stepX
      | Corner.topRight => wrap32 ((img.width : ℤ) - 1 - ((sxi * stepX : ℕ) : ℤ))
      | Corner.bottomLeft => sxi * stepX
      | Corner.bottomRight => wrap32 ((img.width : ℤ) - 1 - ((sxi * stepX : ℕ) : ℤ))
    let y : ℕ :=
      match corner with
      | Corner.topLeft => syi * stepY
      | Corner.topRight => syi * stepY
      | Corner.bottomLeft => wrap32 ((img.height : ℤ) - 1 - ((syi * stepY : ℕ) : ℤ))
      | Corner.bottomRight => wrap32 ((img.height : ℤ) - 1 - ((syi * stepY : ℕ) : ℤ))
    match floodFill img ⟨x, y⟩ (fun _ c => markerMatchColor c) with
    | none => none
    | some (pixels, _) =>
      if pixels.Nonempty ∧ isAtLeastThisMuchOfImage pixels.card img MARKER_THRESHOLD = true then
        match Area.newFromPixels pixels with
        | some area => some (Except.ok area)
        | none => none
      else findMarkerGo img corner stepX stepY rest

/-- Function `Markers::find_marker` from `extractor.rs`: scan steps are
`max(1, (MARKER_SCAN_STEP * dimension) as u32)` and the scan runs over
`MARKER_SCAN_STEPS * MARKER_SCAN_STEPS` seed positions. -/
def findMarker (img : Img) (corner : Corner) : Option (Except String Area) :=
  findMarkerGo img corner
    (max 1 ((MARKER_SCAN_STEP * (img.width : ℚ)).floor.toNat))
    (max 1 ((MARKER_SCAN_STEP * (img.height : ℚ)).floor.toNat))
    ((List.range MARKER_SCAN_STEPS).flatMap
      (fun sxi => (List.range MARKER_SCAN_STEPS).map (fun syi => (sxi, syi))))

/-- The four markers (struct `Markers` in `extractor.rs`). -/
structure Markers where
  topLeft : Area
  topRight : Area
  bottomLeft : Area
  bottomRight : Area
deriving DecidableEq, Repr

/-- Function `Markers::find` from `extractor.rs`: the configuration check,
the four corner scans, then the eight ordering checks, in source order. -/
def markersFind (img : Img) : Option (Except String Markers) :=
  if MARKER_SCAN_STEP * (MARKER_SCAN_STEPS : ℚ) ≥ 0.5 then
    some (Except.error "marker search will go past the middle of width or height")
  else
    match findMarker img Corner.topLeft with
    | none => none
    | some (Except.error e) => some (Except.error e)
    | some (Except.ok tl) =>
      match findMarker img Corner.topRight with
      | none => none
      | some (Except.error e) => some (Except.error e)
      | some (Except.ok tr) =>
        match findMarker img Corner.bottomLeft with
        | none => none
        | some (Except.error e) => some (Except.error e)
        | some (Except.ok bl) =>
          match findMarker img Corner.bottomRight with
          | none => none
          | some (Except.error e) => some (Except.error e)
          | some (Except.ok br) =>
            if tl.center.x > tr.center.x then
              some (Except.error "top left must be to the left of top right")
            else if tl.center.x > br.center.x then
              some (Except.error "top left must be to the left of bottom right")
            else if bl.center.x > tr.center.x then
              some (Except.error "bottom left must be to the left of top right")
            else if bl.center.x > br.center.x then
              some (Except.error "bottom left must be to the left of bottom right")
            else if tl.center.y > bl.center.y then
              some (Except.error "top left must be above bottom left")
            else if tl.center.y > br.center.y then
              some (Except.error "top left must be above bottom right")
            else if tr.center.y > bl.center.y then
              some (Except.error "top right must be above bottom left")
            else if tr.center.y > br.center.y then
              some (Except.error "top right must be above bottom right")
            else some (Except.ok ⟨tl, tr, bl, br⟩)

/-- The marker ordering invariants stated in the specification (section 3):
both left-corner centers are at most both right-corner centers in `x`, and
both top-corner centers are at most both bottom-corner centers in `y`. -/
def MarkersInv (m : Markers) : Prop :=
  m.topLeft.center.x ≤ m.topRight.center.x ∧
  m.topLeft.center.x ≤ m.bottomRight.center.x ∧
  m.bottomLeft.center.x ≤ m.topRight.center.x ∧
  m.bottomLeft.center.x ≤ m.bottomRight.center.x ∧
  m.topLeft.center.y ≤ m.bottomLeft.center.y ∧
  m.topLeft.center.y ≤ m.bottomRight.center.y ∧
  m.topRight.center.y ≤ m.bottomLeft.center.y ∧
  m.topRight.center.y ≤ m.bottomRight.center.y

instance (m : Markers) : Decidable (MarkersInv m) := by
  unfold MarkersInv
  infer_instance

/-- One step of the accumulation loop in `Background::check_color`
(`extractor.rs`): the sample color is converted to YUV, the weight is
`1.0 / distance.powi(3)` (the source comment says "powi to bias towards
closer points"), and the four running sums are updated with IEEE `f32`
arithmetic.  The accumulator holds `(y, u, v, distances)`. -/
noncomputable def checkColorStep (xy : XY) (acc : F × F × F × F) (ac : Area × Colorv) :
    F × F × F × F :=
  let yuv := colorYuv ac.2
  let distance := F.div (F.fin 1) (F.fin (XY.distR xy (Area.center ac.1) ^ (3 : ℕ)))
  (F.add acc.1 (F.mul distance yuv.y),
   F.add acc.2.1 (F.mul distance yuv.u),
   F.add acc.2.2.1 (F.mul distance yuv.v),
   F.add acc.2.2.2 distance)

/-- Method `Background::check_color` from `extractor.rs`.  The `HashMap` of
samples is modelled as an association list; the real-valued accumulation is
order-independent, so the unspecified `HashMap` iteration order is harmless.
The final `YUV::new(...).unwrap()` is modelled by `Option`: `none` is the
panic of `unwrap` on an `Err`. -/
noncomputable def checkColor (areas : List (Area × Colorv)) (xy : XY) : Option Colorv :=
  let acc := areas.foldl (checkColorStep xy) (F.fin 0, F.fin 0, F.fin 0, F.fin 0)
  match yuvNew (F.div acc.1 acc.2.2.2) (F.div acc.2.1 acc.2.2.2)
      (F.div acc.2.2.1 acc.2.2.2) with
  | Except.ok t => some (Colorv.yuv t)
  | Except.error _ => none

/-- Finite payload of an `f32` model value (`0` for the special values);
used only to state weighted-mean formulas about values already known to be
finite. -/
def F.finPart : F → ℝ
  | F.fin a => a
  | _ => 0

/-- Weight the source actually uses in `check_color`: inverse cubed
distance. -/
noncomputable def codeWeight (xy : XY) (ac : Area × Colorv) : ℝ :=
  1 / XY.distR xy (Area.center ac.1) ^ (3 : ℕ)

/-- Modelled from the spec: the section 4.5 background estimate, with weight
`w_i = 1 / d_i ^ 2` where `d_i` is the Euclidean distance from the query
point to the i-th sample center; the estimated YUV is the component-wise
weighted mean `Σ w_i yuv_i / Σ w_i`. -/
noncomputable def specEstimateYuv (areas : List (Area × Colorv)) (xy : XY) : ℝ × ℝ × ℝ :=
  let w : Area × Colorv → ℝ := fun ac => 1 / XY.distR xy (Area.center ac.1) ^ (2 : ℕ)
  let total := (areas.map w).sum
  ((areas.map (fun ac => w ac * (colorYuv ac.2).y.finPart)).sum / total,
   (areas.map (fun ac => w ac * (colorYuv ac.2).u.finPart)).sum / total,
   (areas.map (fun ac => w ac * (colorYuv ac.2).v.finPart)).sum / total)

/-- Per-pixel body of the first loop of `BackgroundDifference::new`
(`extractor.rs`): LAB of the interpolated background color at the pixel,
LAB of the pixel itself, and their channel-wise difference.  `none` is the
panic of the `unwrap` inside `check_color`. -/
noncomputable def bgDiffCell (img : Img) (bg : List (Area × Colorv)) (x y : ℕ) :
    Option (ℝ × ℝ × ℝ) :=
  match checkColor bg ⟨x, y⟩ with
  | none => none
  | some c =>
    let bgLab := colorLab c
    let pixLab := colorLab (Colorv.rgb ((img.pix x y).toRgb))
    some (pixLab.1 - bgLab.1, pixLab.2.1 - bgLab.2.1, pixLab.2.2 - bgLab.2.2)

/-- Raw (pre-normalisation) difference table of `BackgroundDifference::new`,
indexed `[x][y]` as in the source (`xi` outer loop, `yi` inner loop). -/
noncomputable def bgDiffRaw (img : Img) (bg : List (Area × Colorv)) :
    Option (List (List (ℝ × ℝ × ℝ))) :=
  (List.range img.width).mapM
    (fun x => (List.range img.height).mapM (fun y => bgDiffCell img bg x y))

/-- The running-maximum update `if d > m { m = d }` of
`BackgroundDifference::new`, starting from `0.0`. -/
noncomputable def maxUpd (m d : ℝ) : ℝ := if d > m then d else m

/-- Channel maxima of `BackgroundDifference::new`: the source updates the
three maxima inside the same sweep that fills the raw table; folding over
the completed table in the same order yields the same values. -/
noncomputable def bgDiffMax (cells : List (List (ℝ × ℝ × ℝ))) : ℝ × ℝ × ℝ :=
  cells.foldl
    (fun acc col =>
      col.foldl
        (fun acc c => (maxUpd acc.1 c.1, maxUpd acc.2.1 c.2.1, maxUpd acc.2.2 c.2.2))
        acc)
    (0, 0, 0)

/-- Function `BackgroundDifference::new` from `extractor.rs`: every stored
difference is divided by its channel maximum with no zero guard; the
division is the IEEE `f32` division of the model (`0/0 = NaN`). -/
noncomputable def backgroundDifference (img : Img) (bg : List (Area × Colorv)) :
    Option (List (List (F × F × F))) :=
  match bgDiffRaw img bg with
  | none => none
  | some cells =>
    let m := bgDiffMax cells
    some (cells.map (fun col => col.map (fun c =>
      (F.div (F.fin c.1) (F.fin m.1),
       F.div (F.fin c.2.1) (F.fin m.2.1),
       F.div (F.fin c.2.2) (F.fin m.2.2)))))

/-- The non-transparency test used by the component scans in
`IdentifiedStickers::new` and `main.rs::extract`: the closure reads the
image again and compares the full RGBA value with `TRANSPARENT`. -/
def nonTransparent (img : Img) (xy : XY) : Bool :=
  decide (img.pix xy.x xy.y ≠ TRANSPARENT)

/-- Column-major enumeration of all pixel coordinates (`ix` outer, `iy`
inner), as in the scan loop of `IdentifiedStickers::new`. -/
def colMajor (img : Img) : List XY :=
  (List.range img.width).flatMap
    (fun ix => (List.range img.height).map (fun iy => XY.mk ix iy))

/-- Component-collection loop of `IdentifiedStickers::new` (`extractor.rs`):
a pixel is skipped when some already collected bounding `Area` contains it
(`areas.iter().any(|v| v.contains(&xy))`), or when it is transparent;
otherwise the non-transparent component is flood filled and its bounding
rectangle appended.  `none` models a panic (`flood_fill` out of bounds or
`unwrap` on an empty pixel set, both unreachable from `collectAreas`). -/
def collectAreasGo (img : Img) : List XY → List Area → Option (List Area)
  | [], areas => some areas
  | xy :: rest, areas =>
    if areas.any (fun v => Area.contains v xy) then collectAreasGo img rest areas
    else if img.pix xy.x xy.y = TRANSPARENT then collectAreasGo img rest areas
    else
      match floodFill img xy (fun z _ => nonTransparent img z) with
      | none => none
      | some (pixels, _) =>
        match Area.newFromPixels pixels with
        | some area => collectAreasGo img rest (areas ++ [area])
        | none => none

/-- The list of component bounding areas collected by
`IdentifiedStickers::new`. -/
def collectAreas (img : Img) : Option (List Area) :=
  collectAreasGo img (colMajor img) []

/-- Modelled from the spec: the section 4.7 enumeration procedure as quoted
by the claim, which flood fills from each non-transparent pixel *not already
contained in a previously visited component pixel set*; the running union of
component pixel sets plays the role of the visited set. -/
def specCollectVisitedGo (img : Img) :
    List XY → List Area → Finset XY → Option (List Area)
  | [], areas, _ => some areas
  | xy :: rest, areas, visited =>
    if img.pix xy.x xy.y = TRANSPARENT then specCollectVisitedGo img rest areas visited
    else if xy ∈ visited then specCollectVisitedGo img rest areas visited
    else
      match floodFill img xy (fun z _ => nonTransparent img z) with
      | none => none
      | some (pixels, _) =>
        match Area.newFromPixels pixels with
        | some area => specCollectVisitedGo img rest (areas ++ [area]) (visited ∪ pixels)
        | none => none

/-- Modelled from the spec, with the skip condition amended to what the
source implements: a non-transparent pixel is skipped when it is contained
in a previously collected component *bounding Area* (rather than in its
pixel set). -/
def specCollectBBoxGo (img : Img) : List XY → List Area → Option (List Area)
  | [], areas => some areas
  | xy :: rest, areas =>
    if img.pix xy.x xy.y = TRANSPARENT then specCollectBBoxGo img rest areas
    else if areas.any (fun v => Area.contains v xy) then specCollectBBoxGo img rest areas
    else
      match floodFill img xy (fun z _ => nonTransparent img z) with
      | none => none
      | some (pixels, _) =>
        match Area.newFromPixels pixels with
        | some area => specCollectBBoxGo img rest (areas ++ [area])
        | none => none

/-- Entry point of the spec-modelled section 4.7 enumeration (pixel-set
skip). -/
def specCollectVisited (img : Img) : Option (List Area) :=
  specCollectVisitedGo img (colMajor img) [] ∅

/-- Entry point of the amended spec enumeration (bounding-area skip). -/
def specCollectBBox (img : Img) : Option (List Area) :=
  specCollectBBoxGo img (colMajor img) []

/-- One step of the column-assignment loop of `IdentifiedStickers::new`:
the first already assigned component whose center `x` is within
`SNAP_STICKERS_THRESHOLD * width` of the new center donates its column;
otherwise a fresh column one above the current maximum is opened. -/
def assignColumnsStep (w : ℕ) (acc : List (Area × ℕ)) (area : Area) : List (Area × ℕ) :=
  if acc.isEmpty then acc ++ [(area, 0)]
  else
    match acc.find? (fun v =>
        decide (|((Area.center v.1).x : ℚ) - ((Area.center area).x : ℚ)| <
          (w : ℚ) * SNAP_STICKERS_THRESHOLD)) with
    | some v => acc ++ [(area, v.2)]
    | none => acc ++ [(area, ((acc.map Prod.snd).foldl max 0) + 1)]

/-- Column-assignment stage of `IdentifiedStickers::new`: fold of
`assignColumnsStep` over the areas (already sorted by left edge in the
caller).  The `max().unwrap()` of the source is total here because the
branch only runs with a nonempty accumulator, where the fold with base `0`
computes the same maximum. -/
def assignColumns (w : ℕ) (areas : List Area) : List (Area × ℕ) :=
  areas.foldl (assignColumnsStep w) []

/-- A sticker with its grid position (struct `IdentifiedSticker`). -/
structure IdentifiedSticker where
  area : Area
  column : ℕ
  row : ℕ
deriving DecidableEq, Repr

/-- Row-assignment loop of `IdentifiedStickers::new`: `current_row` resets
to `0` when the column changes and increments otherwise; the first sticker
gets row `0` without touching `current_row`. -/
def assignRowsGo : List (Area × ℕ) → List IdentifiedSticker → ℕ → List IdentifiedSticker
  | [], stickers, _ => stickers
  | (area, column) :: rest, stickers, currentRow =>
    match stickers.getLast? with
    | some last =>
      let newRow := if last.column ≠ column then 0 else currentRow + 1
      assignRowsGo rest (stickers ++ [⟨area, column, newRow⟩]) newRow
    | none => assignRowsGo rest (stickers ++ [⟨area, column, 0⟩]) currentRow

/-- Stable insertion of one element into a sorted list: the new element goes
after every existing element that compares less-or-equal to it. -/
def insertSorted (le : α → α → Bool) (x : α) : List α → List α
  | [] => [x]
  | y :: ys => if le y x then y :: insertSorted le x ys else x :: y :: ys

/-- Stable insertion sort.  The Rust `sort_by_key`/`sort_by` calls are stable
sorts; any stable sort produces the same list, and this structurally
recursive one also evaluates inside the kernel. -/
def stableSortBy (le : α → α → Bool) (l : List α) : List α :=
  l.foldl (fun acc x => insertSorted le x acc) []

/-- Function `IdentifiedStickers::new` from `extractor.rs`: collect the
component bounding areas, sort them by left edge (stable), assign columns,
re-sort by column then top (stable), and assign rows. -/
def identifiedStickers (img : Img) : Option (List IdentifiedSticker) :=
  match collectAreas img with
  | none => none
  | some areas =>
    let sorted := stableSortBy (fun a b => decide (a.left ≤ b.left)) areas
    let assigned := assignColumns img.width sorted
    let ordered := stableSortBy
      (fun a b => decide (a.2 < b.2 ∨ (a.2 = b.2 ∧ a.1.top ≤ b.1.top))) assigned
    some (assignRowsGo ordered [] 0)

/-- Opaque white RGBA pixel. -/
def whitePX : PX := ⟨255, 255, 255, 255⟩

/-- Opaque black RGBA pixel. -/
def blackPX : PX := ⟨0, 0, 0, 255⟩

/-- A 2 by 2 all-white image (used to exercise `flood_fill`). -/
def imgTwo : Img := ⟨2, 2, fun _ _ => whitePX⟩

/-- A predicate failing exactly at pixel `(1,1)`: the three remaining
pixels of `imgTwo` form an L-shaped matching region with two of them
adjacent to `(1,1)`. -/
def predNotCorner : XY → RGBN → Bool :=
  fun xy _ => decide (¬(xy.x = 1 ∧ xy.y = 1))

/-- A 10 by 10 all-black image: no marker can match, so the corner scan
walks past the image edge. -/
def blackImg10 : Img := ⟨10, 10, fun _ _ => blackPX⟩

/-- A 3 by 3 all-white image: every corner scan matches at its first seed
and all four markers coincide. -/
def whiteImg3 : Img := ⟨3, 3, fun _ _ => whitePX⟩

/-- White mask of the 20 by 20 geometry image: an isolated dot at `(0,16)`
(found by the top-left scan), an L-shaped component through `(0,19)` whose
bounding box reaches the top of the image (found by the bottom-left scan,
center y strictly above the top-left center y), and isolated dots at
`(19,0)` and `(19,19)` for the right corners. -/
def geomWhite (x y : ℕ) : Bool :=
  decide ((x = 0 ∧ y = 16) ∨ (y = 19 ∧ x ≤ 17) ∨ (x = 17 ∧ y ≤ 19) ∨
    (x = 19 ∧ y = 0) ∨ (x = 19 ∧ y = 19))

/-- A 20 by 20 image whose located markers violate the ordering
invariants. -/
def geomImg20 : Img :=
  ⟨20, 20, fun x y => if geomWhite x y then whitePX else blackPX⟩

/-- Foreground mask of the nested-component image: a U-shaped component
(left column, right column, bottom row) whose bounding box is the whole
image, plus an isolated pixel at `(2,1)` strictly inside that box. -/
def nestWhite (x y : ℕ) : Bool :=
  decide (x = 0 ∨ x = 4 ∨ y = 4 ∨ (x = 2 ∧ y = 1))

/-- A 5 by 5 RGBA image with a component nested inside the bounding box of
another component. -/
def nestImg5 : Img :=
  ⟨5, 5, fun x y => if nestWhite x y then ⟨255, 0, 0, 255⟩ else TRANSPARENT⟩

/-- A 100 by 1 image with two single-pixel foreground components whose
centers (x = 31 and x = 69) both lie within `0.2 * width = 20` of the
common value `x = 50`, yet are `38` apart from each other. -/
def colsImg100 : Img :=
  ⟨100, 1, fun x _ => if x = 31 ∨ x = 69 then whitePX else TRANSPARENT⟩

/-- Background sample set for the interpolation weight counterexample: two
samples on the x-axis at distances `2` and `4` from the origin, with YUV
colors `(0,0,0)` and `(1,0,0)`. -/
noncomputable def bgTwoSamples : List (Area × Colorv) :=
  [(⟨0, 2, 1, 1⟩, Colorv.yuv ⟨F.fin 0, F.fin 0, F.fin 0⟩),
   (⟨0, 4, 1, 1⟩, Colorv.yuv ⟨F.fin 1, F.fin 0, F.fin 0⟩)]

/-- Background sample set with a single sample centered at `(5,5)` with YUV
color `(1/2, 0, 0)`; queried at its own center. -/
noncomputable def bgCenterSample : List (Area × Colorv) :=
  [(⟨5, 5, 1, 1⟩, Colorv.yuv ⟨F.fin (1 / 2), F.fin 0, F.fin 0⟩)]

/-- A 1 by 1 all-white image for the normalisation edge case. -/
def whiteImg1 : Img := ⟨1, 1, fun _ _ => whitePX⟩

/-- Background sample set for the normalisation edge case: one white RGB
sample centered at `(3,0)`, distance `3` from the only pixel, so the
interpolated background color equals the pixel color and every raw LAB
difference is exactly zero. -/
def bgWhiteSample : List (Area × Colorv) :=
  [(⟨0, 3, 1, 1⟩, Colorv.rgb ⟨255, 255, 255⟩)]

/-- A value of the `f32` model that is not finite. -/
def F.NotFin (x : F) : Prop := x = F.inf ∨ x = F.neginf ∨ x = F.nan

/-- A value of the `f32` model that is either a nonnegative finite number or
`+inf` (the shape of every weight and of the weight accumulator in
`check_color`). -/
def F.NonNegOrInf (x : F) : Prop := x = F.inf ∨ ∃ a : ℝ, 0 ≤ a ∧ x = F.fin a

/-- A YUV triple whose channels are finite and inside the documented ranges
(`y` in `[0,1]`, `abs u` at most `0.436`, `abs v` at most `0.615`). -/
def YuvInRange (t : YUVf) : Prop :=
  ∃ a b c : ℝ, t = ⟨F.fin a, F.fin b, F.fin c⟩ ∧
    0 ≤ a ∧ a ≤ 1 ∧ |b| ≤ 0.436 ∧ |c| ≤ 0.615

/-- Background sample set with one sample centered at `(3,0)` carrying the
in-range YUV color `(1/2, 0, 0)`. -/
noncomputable def bgOneSample : List (Area × Colorv) :=
  [(⟨0, 3, 1, 1⟩, Colorv.yuv ⟨F.fin (1 / 2), F.fin 0, F.fin 0⟩)]

theorem F.add_fin_fin (a b : ℝ) : F.add (F.fin a) (F.fin b) = F.fin (a + b) := rfl

theorem F.mul_fin_fin (a b : ℝ) : F.mul (F.fin a) (F.fin b) = F.fin (a * b) := rfl

theorem F.sub_fin_fin (a b : ℝ) : F.sub (F.fin a) (F.fin b) = F.fin (a - b) := by
  simp [F.sub, F.neg, F.add, sub_eq_add_neg]

theorem F.div_fin_fin (a b : ℝ) (h : b ≠ 0) :
    F.div (F.fin a) (F.fin b) = F.fin (a / b) := by
  simp [F.div, h]

theorem F.lt_fin_fin (a b : ℝ) : F.lt (F.fin a) (F.fin b) ↔ a < b := Iff.rfl

theorem F.abs_fin (a : ℝ) : F.abs (F.fin a) = F.fin |a| := rfl

theorem toU8R_ratCast (q : ℚ) : toU8R (q : ℝ) = toU8Q q := by
  unfold toU8R toU8Q
  rw [Rat.floor_cast]
  rcases le_or_lt q 0 with h | h
  · rw [if_pos (by exact_mod_cast h : (q : ℝ) ≤ 0), if_pos h]
  · rw [if_neg (by exact_mod_cast not_le.mpr h : ¬(q : ℝ) ≤ 0), if_neg (not_le.mpr h)]
    rcases le_or_lt (255 : ℚ) q with h2 | h2
    · rw [if_pos (by exact_mod_cast h2 : (255 : ℝ) ≤ (q : ℝ)), if_pos h2]
    · rw [if_neg (by exact_mod_cast not_le.mpr h2 : ¬(255 : ℝ) ≤ (q : ℝ)),
        if_neg (not_le.mpr h2)]

theorem rgbOfYuvF_fin_q (t : ℚ × ℚ × ℚ) : rgbOfYuvF (yuvFinOfQ t) = rgbOfYuvQ t := by
  obtain ⟨y, u, v⟩ := t
  simp only [rgbOfYuvF, yuvFinOfQ, rgbOfYuvQ, F.add_fin_fin, F.mul_fin_fin, F.sub_fin_fin,
    toU8F, RGBN.mk.injEq]
  refine ⟨?_, ?_, ?_⟩ <;> rw [← toU8R_ratCast] <;> congr 1 <;> push_cast <;> ring

unseal Rat.mul Rat.add Rat.sub Rat.ofScientific Rat.inv in
/-- C1: the claim states that converting any 8-bit RGB triple to YUV and back
reproduces each channel within 2.  On the source, pure red RGB(255,0,0)
round-trips to RGB(254,81,0): the green channel is off by 81, because the
green formula of the YUV to RGB conversion multiplies the two chroma terms
(`y - 0.395 u * 0.581 v`) instead of subtracting them.  This theorem
evaluates the source conversions at that failing input. -/
theorem c1_red_roundtrip_green_off :
    rgbOfYuvF (colorYuv (Colorv.rgb ⟨255, 0, 0⟩)) = ⟨254, 81, 0⟩ := by
  rw [show colorYuv (Colorv.rgb ⟨255, 0, 0⟩) = yuvFinOfQ (yuvOfRgb ⟨255, 0, 0⟩) from rfl,
    rgbOfYuvF_fin_q]
  decide

unseal Rat.mul Rat.add Rat.sub Rat.ofScientific Rat.inv in
/-- C7: the claim states that a scan seed beyond image bounds makes
`Markers::find_marker` fail that corner with an error, and that it never
panics.  On a 10 by 10 all-black image the top-left scan finds no marker in
column zero and its eleventh seed is `(0,10)`, one past the bottom edge;
the source calls `get_pixel` there without any bounds check, which panics
(modelled by `none`; an error result would be `some (Except.error e)`). -/
theorem c7_find_marker_out_of_bounds :
    findMarker blackImg10 Corner.topLeft = none := by decide

theorem floodFillAux_count (img : Img) (p : XY → RGBN → Bool) :
    ∀ (fuel : ℕ) (queue : List XY) (pixels : Finset XY) (trace : List XY)
      (res : Finset XY × List XY),
      floodFillAux img p fuel queue pixels trace = some res →
      (∀ z ∈ pixels, p z ((img.pix z.x z.y).toRgb) = true) →
      (∀ z, p z ((img.pix z.x z.y).toRgb) = true →
        trace.count z = if z ∈ pixels then 1 else 0) →
      (∀ z ∈ res.1, p z ((img.pix z.x z.y).toRgb) = true) ∧
      (∀ z, p z ((img.pix z.x z.y).toRgb) = true →
        res.2.count z = if z ∈ res.1 then 1 else 0) := by
  intro fuel
  induction fuel with
  | zero =>
    intro queue pixels trace res h
    simp [floodFillAux] at h
  | succ n ih =>
    intro queue pixels trace res h hmem hcount
    match queue with
    | [] =>
      simp only [floodFillAux, Option.some.injEq] at h
      subst h
      exact ⟨hmem, hcount⟩
    | xy :: rest =>
      simp only [floodFillAux] at h
      by_cases hin : xy ∈ pixels
      · rw [if_pos hin] at h
        exact ih rest pixels trace res h hmem hcount
      · rw [if_neg hin] at h
        by_cases hb : xy.x < img.width ∧ xy.y < img.height
        · rw [if_pos hb] at h
          by_cases hp : p xy ((img.pix xy.x xy.y).toRgb) = true
          · rw [if_pos hp] at h
            refine ih _ _ _ res h ?_ ?_
            · intro z hz
              rcases Finset.mem_insert.mp hz with hz | hz
              · exact hz ▸ hp
              · exact hmem z hz
            · intro z hpz
              rw [List.count_append, List.count_cons, List.count_nil]
              by_cases hzx : z = xy
              · subst hzx
                rw [hcount z hpz, if_neg hin, if_pos (Finset.mem_insert_self z pixels)]
                simp
              · have hxz : ¬xy = z := fun e => hzx e.symm
                rw [hcount z hpz]
                simp [Finset.mem_insert, hzx, hxz]
          · rw [if_neg hp] at h
            refine ih _ _ _ res h hmem ?_
            intro z hpz
            have hzx : ¬xy = z := by
              intro hzz
              exact hp (hzz ▸ hpz)
            rw [List.count_append, List.count_cons, List.count_nil, hcount z hpz]
            simp [hzx]
        · rw [if_neg hb] at h
          exact absurd h (by simp)

/-- C6 (amended): the claim states that during one `flood_fill` call the
predicate is evaluated at most once per pixel.  That holds only for the
pixels of the returned set, each of which is evaluated exactly once; a pixel
that fails the predicate is never inserted into the visited set and is
re-evaluated every time it is popped again (see the counterexample). -/
theorem c6_flood_fill_eval_once (img : Img) (xy : XY) (p : XY → RGBN → Bool)
    (pixels : Finset XY) (trace : List XY)
    (h : floodFill img xy p = some (pixels, trace)) :
    ∀ z ∈ pixels, trace.count z = 1 := by
  have main := floodFillAux_count img p (4 * img.width * img.height + 2) [xy] ∅ []
    (pixels, trace) h (by simp) (by simp)
  intro z hz
  have hc := main.2 z (main.1 z hz)
  rwa [if_pos hz] at hc

/-- Witness for C6: on the concrete 2 by 2 run, the matched pixel `(0,1)`
appears exactly once in the evaluation trace. -/
theorem c6_flood_fill_eval_once_witness :
    ([⟨0, 0⟩, ⟨0, 1⟩, ⟨1, 1⟩, ⟨1, 0⟩, ⟨1, 1⟩] : List XY).count ⟨0, 1⟩ = 1 :=
  c6_flood_fill_eval_once imgTwo ⟨0, 0⟩ predNotCorner
    (insert ⟨1, 0⟩ (insert ⟨0, 1⟩ (insert ⟨0, 0⟩ ∅)))
    [⟨0, 0⟩, ⟨0, 1⟩, ⟨1, 1⟩, ⟨1, 0⟩, ⟨1, 1⟩]
    (by rfl) ⟨0, 1⟩ (by decide)

/-- Counterexample for C6: on a 2 by 2 image with a predicate failing only
at `(1,1)`, that pixel is popped twice from the worklist (pushed once by
each matching neighbor) and the predicate is evaluated on it twice. -/
theorem c6_flood_fill_eval_twice_cex :
    (floodFill imgTwo ⟨0, 0⟩ predNotCorner).map (fun r => r.2.count ⟨1, 1⟩) = some 2 := by
  decide

theorem collectAreasGo_eq_bbox (img : Img) :
    ∀ (l : List XY) (areas : List Area),
      collectAreasGo img l areas = specCollectBBoxGo img l areas := by
  intro l
  induction l with
  | nil => intro areas; rfl
  | cons xy rest ih =>
    intro areas
    simp only [collectAreasGo, specCollectBBoxGo]
    by_cases hA : (areas.any fun v => Area.contains v xy) = true
    · by_cases hB : img.pix xy.x xy.y = TRANSPARENT
      · rw [if_pos hA, if_pos hB, ih]
      · rw [if_pos hA, if_neg hB, if_pos hA, ih]
    · by_cases hB : img.pix xy.x xy.y = TRANSPARENT
      · rw [if_neg hA, if_pos hB, if_pos hB, ih]
      · rw [if_neg hA, if_neg hB, if_neg hB, if_neg hA]
        cases hf : floodFill img xy (fun z _ => nonTransparent img z) with
        | none => rfl
        | some pr =>
          obtain ⟨pixels, tr⟩ := pr
          cases hn : Area.newFromPixels pixels with
          | none => simp only [hn]
          | some area =>
            simp only [hn]
            exact ih (areas ++ [area])

/-- C5 (amended): the claim states that the areas collected by
`IdentifiedStickers::new` equal those of the section 4.7 enumeration, which
skips pixels already contained in a previously visited component *pixel
set*.  The source instead skips pixels contained in a previously collected
*bounding Area*; with the skip condition amended accordingly, the two
enumerations agree on every image. -/
theorem c5_collect_eq_bbox_enumeration (img : Img) :
    collectAreas img = specCollectBBox img :=
  collectAreasGo_eq_bbox img (colMajor img) []

unseal Rat.mul Rat.add Rat.sub Rat.ofScientific Rat.inv in
/-- Counterexample for C5: on the 5 by 5 image with an isolated pixel nested
inside the bounding box of a U-shaped component, the source enumeration
collects only the U-shaped component, while the pixel-set enumeration of
the claim also collects the nested pixel. -/
theorem c5_nested_component_cex :
    collectAreas nestImg5 ≠ specCollectVisited nestImg5 ∧
    collectAreas nestImg5 = some [⟨0, 0, 5, 5⟩] ∧
    specCollectVisited nestImg5 = some [⟨0, 0, 5, 5⟩, ⟨1, 2, 1, 1⟩] := by
  refine ⟨by decide, by decide, by decide⟩

theorem assignColumns_fold_zero (w : ℕ) (x0 : ℚ) :
    ∀ (l : List Area) (acc : List (Area × ℕ)),
      (∀ q ∈ acc, q.2 = 0 ∧
        |((Area.center q.1).x : ℚ) - x0| < (w : ℚ) * SNAP_STICKERS_THRESHOLD / 2) →
      (∀ a ∈ l,
        |((Area.center a).x : ℚ) - x0| < (w : ℚ) * SNAP_STICKERS_THRESHOLD / 2) →
      ∀ q ∈ l.foldl (assignColumnsStep w) acc,
        q.2 = 0 ∧
        |((Area.center q.1).x : ℚ) - x0| < (w : ℚ) * SNAP_STICKERS_THRESHOLD / 2 := by
  intro l
  induction l with
  | nil =>
    intro acc hacc _
    simpa using hacc
  | cons a rest ih =>
    intro acc hacc hl
    rw [List.foldl_cons]
    apply ih
    · intro q hq
      unfold assignColumnsStep at hq
      have ha : |((Area.center a).x : ℚ) - x0| < (w : ℚ) * SNAP_STICKERS_THRESHOLD / 2 :=
        hl a (List.mem_cons_self a rest)
      by_cases he : acc.isEmpty
      · rw [if_pos he] at hq
        rcases List.mem_append.mp hq with hq | hq
        · exact hacc q hq
        · rcases List.mem_singleton.mp hq with rfl
          exact ⟨rfl, ha⟩
      · rw [if_neg he] at hq
        rcases hfind : acc.find? (fun v =>
            decide (|((Area.center v.1).x : ℚ) - ((Area.center a).x : ℚ)| <
              (w : ℚ) * SNAP_STICKERS_THRESHOLD)) with _ | v
        · exfalso
          obtain ⟨p0, hp0⟩ : ∃ p0, p0 ∈ acc := by
            cases acc with
            | nil => simp [List.isEmpty_nil] at he
            | cons b bs => exact ⟨b, List.mem_cons_self b bs⟩
          have hnone := List.find?_eq_none.mp hfind p0 hp0
          apply hnone
          rw [decide_eq_true_eq]
          have h0 := (hacc p0 hp0).2
          calc |((Area.center p0.1).x : ℚ) - ((Area.center a).x : ℚ)|
              = |(((Area.center p0.1).x : ℚ) - x0) + (x0 - ((Area.center a).x : ℚ))| := by
                ring_nf
            _ ≤ |((Area.center p0.1).x : ℚ) - x0| + |x0 - ((Area.center a).x : ℚ)| :=
                abs_add _ _
            _ = |((Area.center p0.1).x : ℚ) - x0| + |((Area.center a).x : ℚ) - x0| := by
                rw [abs_sub_comm x0]
            _ < (w : ℚ) * SNAP_STICKERS_THRESHOLD / 2 +
                (w : ℚ) * SNAP_STICKERS_THRESHOLD / 2 := by
                exact add_lt_add h0 ha
            _ = (w : ℚ) * SNAP_STICKERS_THRESHOLD := by ring
        · rw [hfind] at hq
          rcases List.mem_append.mp hq with hq | hq
          · exact hacc q hq
          · rcases List.mem_singleton.mp hq with rfl
            exact ⟨(hacc v (List.mem_of_find?_eq_some hfind)).1, ha⟩
    · intro b hb
      exact hl b (List.mem_cons_of_mem a hb)

/-- C8 (amended): the claim states that rectangles whose centers all lie
within `SNAP_STICKERS_THRESHOLD * width` of a common x are assigned a single
column.  The source compares centers pairwise against that threshold, so the
claim holds with half the radius: if every center is strictly within
`SNAP_STICKERS_THRESHOLD * width / 2` of a common x, the column-assignment
stage of `IdentifiedStickers::new` gives every area column `0`. -/
theorem c8_half_snap_single_column (w : ℕ) (areas : List Area) (x0 : ℚ)
    (hx : ∀ a ∈ areas,
      |((Area.center a).x : ℚ) - x0| < (w : ℚ) * SNAP_STICKERS_THRESHOLD / 2) :
    ∀ q ∈ assignColumns w areas, q.2 = 0 := by
  intro q hq
  exact (assignColumns_fold_zero w x0 areas [] (by simp) hx q hq).1

unseal Rat.mul Rat.add Rat.sub Rat.ofScientific Rat.inv in
/-- Witness for C8: two areas with centers 45 and 55, both within 10 of 50,
are both assigned column 0. -/
theorem c8_half_snap_single_column_witness :
    (((⟨0, 55, 1, 1⟩ : Area), 0) : Area × ℕ).2 = 0 ∧
    (((⟨0, 55, 1, 1⟩ : Area), 0) : Area × ℕ) ∈
      assignColumns 100 [⟨0, 45, 1, 1⟩, ⟨0, 55, 1, 1⟩] :=
  ⟨c8_half_snap_single_column 100 [⟨0, 45, 1, 1⟩, ⟨0, 55, 1, 1⟩] 50
      (by decide) (((⟨0, 55, 1, 1⟩ : Area), 0) : Area × ℕ) (by decide),
    by decide⟩

unseal Rat.mul Rat.add Rat.sub Rat.ofScientific Rat.inv in
/-- Counterexample for C8: on a 100 by 1 image, two single-pixel components
with centers 31 and 69 both lie strictly within `0.2 * 100 = 20` of the
common value 50, yet `IdentifiedStickers::new` assigns them different
columns, because the source compares centers pairwise and `|69 - 31| = 38`
exceeds the threshold. -/
theorem c8_common_x_two_columns_cex :
    |((Area.center ⟨0, 31, 1, 1⟩).x : ℚ) - 50| < (100 : ℚ) * SNAP_STICKERS_THRESHOLD ∧
    |((Area.center ⟨0, 69, 1, 1⟩).x : ℚ) - 50| < (100 : ℚ) * SNAP_STICKERS_THRESHOLD ∧
    identifiedStickers colsImg100 =
      some [⟨⟨0, 31, 1, 1⟩, 0, 0⟩, ⟨⟨0, 69, 1, 1⟩, 1, 0⟩] := by
  refine ⟨by decide, by decide, by decide⟩

/-- C9: whenever `Markers::find` returns a marker set, the eight ordering
invariants hold; and whenever the four corner scans locate markers that
violate the invariants, `Markers::find` returns an error instead of a
marker set. -/
theorem c9_markers_find_geometry (img : Img) :
    (∀ m, markersFind img = some (Except.ok m) → MarkersInv m) ∧
    (∀ tl tr bl br,
      findMarker img Corner.topLeft = some (Except.ok tl) →
      findMarker img Corner.topRight = some (Except.ok tr) →
      findMarker img Corner.bottomLeft = some (Except.ok bl) →
      findMarker img Corner.bottomRight = some (Except.ok br) →
      ¬ MarkersInv ⟨tl, tr, bl, br⟩ →
      ∃ e, markersFind img = some (Except.error e)) := by
  have hcfg : ¬ MARKER_SCAN_STEP * (MARKER_SCAN_STEPS : ℚ) ≥ 0.5 := by
    norm_num [MARKER_SCAN_STEP, MARKER_SCAN_STEPS]
  constructor
  · intro m h
    unfold markersFind at h
    rw [if_neg hcfg] at h
    rcases e1 : findMarker img Corner.topLeft with _ | r1
    · rw [e1] at h; simp at h
    rcases r1 with e | tl
    · rw [e1] at h; simp at h
    rcases e2 : findMarker img Corner.topRight with _ | r2
    · rw [e1, e2] at h; simp at h
    rcases r2 with e | tr
    · rw [e1, e2] at h; simp at h
    rcases e3 : findMarker img Corner.bottomLeft with _ | r3
    · rw [e1, e2, e3] at h; simp at h
    rcases r3 with e | bl
    · rw [e1, e2, e3] at h; simp at h
    rcases e4 : findMarker img Corner.bottomRight with _ | r4
    · rw [e1, e2, e3, e4] at h; simp at h
    rcases r4 with e | br
    · rw [e1, e2, e3, e4] at h; simp at h
    rw [e1, e2, e3, e4] at h
    simp only [] at h
    by_cases c1 : tl.center.x > tr.center.x
    · rw [if_pos c1] at h; simp at h
    rw [if_neg c1] at h
    by_cases c2 : tl.center.x > br.center.x
    · rw [if_pos c2] at h; simp at h
    rw [if_neg c2] at h
    by_cases c3 : bl.center.x > tr.center.x
    · rw [if_pos c3] at h; simp at h
    rw [if_neg c3] at h
    by_cases c4 : bl.center.x > br.center.x
    · rw [if_pos c4] at h; simp at h
    rw [if_neg c4] at h
    by_cases c5 : tl.center.y > bl.center.y
    · rw [if_pos c5] at h; simp at h
    rw [if_neg c5] at h
    by_cases c6 : tl.center.y > br.center.y
    · rw [if_pos c6] at h; simp at h
    rw [if_neg c6] at h
    by_cases c7 : tr.center.y > bl.center.y
    · rw [if_pos c7] at h; simp at h
    rw [if_neg c7] at h
    by_cases c8 : tr.center.y > br.center.y
    · rw [if_pos c8] at h; simp at h
    rw [if_neg c8] at h
    have hm : Markers.mk tl tr bl br = m := by simpa using h
    rw [← hm]
    exact ⟨Nat.le_of_not_lt c1, Nat.le_of_not_lt c2, Nat.le_of_not_lt c3,
      Nat.le_of_not_lt c4, Nat.le_of_not_lt c5, Nat.le_of_not_lt c6,
      Nat.le_of_not_lt c7, Nat.le_of_not_lt c8⟩
  · intro tl tr bl br h1 h2 h3 h4 hinv
    unfold markersFind
    rw [if_neg hcfg, h1, h2, h3, h4]
    simp only []
    by_cases c1 : tl.center.x > tr.center.x
    · exact ⟨_, by rw [if_pos c1]⟩
    rw [if_neg c1]
    by_cases c2 : tl.center.x > br.center.x
    · exact ⟨_, by rw [if_pos c2]⟩
    rw [if_neg c2]
    by_cases c3 : bl.center.x > tr.center.x
    · exact ⟨_, by rw [if_pos c3]⟩
    rw [if_neg c3]
    by_cases c4 : bl.center.x > br.center.x
    · exact ⟨_, by rw [if_pos c4]⟩
    rw [if_neg c4]
    by_cases c5 : tl.center.y > bl.center.y
    · exact ⟨_, by rw [if_pos c5]⟩
    rw [if_neg c5]
    by_cases c6 : tl.center.y > br.center.y
    · exact ⟨_, by rw [if_pos c6]⟩
    rw [if_neg c6]
    by_cases c7 : tr.center.y > bl.center.y
    · exact ⟨_, by rw [if_pos c7]⟩
    rw [if_neg c7]
    by_cases c8 : tr.center.y > br.center.y
    · exact ⟨_, by rw [if_pos c8]⟩
    exact absurd
      ⟨Nat.le_of_not_lt c1, Nat.le_of_not_lt c2, Nat.le_of_not_lt c3,
        Nat.le_of_not_lt c4, Nat.le_of_not_lt c5, Nat.le_of_not_lt c6,
        Nat.le_of_not_lt c7, Nat.le_of_not_lt c8⟩ hinv

set_option maxRecDepth 8000 in
unseal Rat.mul Rat.add Rat.sub Rat.ofScientific Rat.inv in
/-- Witness for C9: on a 3 by 3 all-white image `Markers::find` succeeds and
the returned markers satisfy the invariants; on the 20 by 20 geometry image
the four corner scans succeed but the located top-left center (y = 16) lies
below the bottom-left center (y = 10), and `Markers::find` returns an
error. -/
theorem c9_markers_find_geometry_witness :
    MarkersInv ⟨⟨0, 0, 3, 3⟩, ⟨0, 0, 3, 3⟩, ⟨0, 0, 3, 3⟩, ⟨0, 0, 3, 3⟩⟩ ∧
    ∃ e, markersFind geomImg20 = some (Except.error e) :=
  ⟨(c9_markers_find_geometry whiteImg3).1 ⟨⟨0, 0, 3, 3⟩, ⟨0, 0, 3, 3⟩, ⟨0, 0, 3, 3⟩, ⟨0, 0, 3, 3⟩⟩
      (by decide),
    (c9_markers_find_geometry geomImg20).2 ⟨16, 0, 1, 1⟩ ⟨0, 19, 1, 1⟩ ⟨0, 0, 18, 20⟩
      ⟨19, 19, 1, 1⟩ (by decide) (by decide) (by decide) (by decide) (by decide)⟩

theorem yuvMaxY_eq : YUV_MAX_Y = 1 := by norm_num [YUV_MAX_Y]

theorem yuvNew_ok (y u v : ℝ) (h0 : 0 ≤ y) (h1 : y ≤ YUV_MAX_Y)
    (h2 : |u| ≤ YUV_MAX_U) (h3 : |v| ≤ YUV_MAX_V) :
    yuvNew (F.fin y) (F.fin u) (F.fin v) = Except.ok ⟨F.fin y, F.fin u, F.fin v⟩ := by
  have g0 : ¬ F.lt (F.fin y) (F.fin 0) := not_lt.mpr h0
  have g1 : ¬ F.lt (F.fin YUV_MAX_Y) (F.fin y) := not_lt.mpr h1
  have g2 : ¬ F.lt (F.fin YUV_MAX_U) (F.abs (F.fin u)) := not_lt.mpr h2
  have g3 : ¬ F.lt (F.fin YUV_MAX_V) (F.abs (F.fin v)) := not_lt.mpr h3
  unfold yuvNew
  rw [if_neg g0, if_neg g1, if_neg g2, if_neg g3]

theorem yuvNew_nan :
    yuvNew F.nan F.nan F.nan = Except.ok ⟨F.nan, F.nan, F.nan⟩ := by
  unfold yuvNew
  rw [if_neg (show ¬ F.lt F.nan (F.fin 0) from fun h => h),
    if_neg (show ¬ F.lt (F.fin YUV_MAX_Y) F.nan from fun h => h),
    if_neg (show ¬ F.lt (F.fin YUV_MAX_U) (F.abs F.nan) from fun h => h),
    if_neg (show ¬ F.lt (F.fin YUV_MAX_V) (F.abs F.nan) from fun h => h)]

theorem list_weighted_abs_le {α : Type} (l : List α) (w f : α → ℝ) (c : ℝ)
    (hw : ∀ i ∈ l, 0 ≤ w i) (hf : ∀ i ∈ l, |f i| ≤ c) :
    |(l.map (fun i => w i * f i)).sum| ≤ c * (l.map w).sum := by
  induction l with
  | nil => simp
  | cons x rest ih =>
    have hwx := hw x (List.mem_cons_self _ _)
    have hfx := hf x (List.mem_cons_self _ _)
    have ihr := ih (fun i hi => hw i (List.mem_cons_of_mem _ hi))
      (fun i hi => hf i (List.mem_cons_of_mem _ hi))
    simp only [List.map_cons, List.sum_cons]
    calc |w x * f x + (rest.map (fun i => w i * f i)).sum|
        ≤ |w x * f x| + |(rest.map (fun i => w i * f i)).sum| := abs_add _ _
      _ ≤ w x * c + c * (rest.map w).sum := by
          apply add_le_add _ ihr
          rw [abs_mul, abs_of_nonneg hwx]
          exact mul_le_mul_of_nonneg_left hfx hwx
      _ = c * (w x + (rest.map w).sum) := by ring

theorem checkColor_fold_fin (q : XY) (l : List (Area × Colorv)) :
    ∀ (A B C D : ℝ),
      (∀ s ∈ l, 0 < XY.distR q (Area.center s.1)) →
      (∀ s ∈ l, YuvInRange (colorYuv s.2)) →
      l.foldl (checkColorStep q) (F.fin A, F.fin B, F.fin C, F.fin D) =
        (F.fin (A + (l.map (fun s => codeWeight q s * ((colorYuv s.2).y.finPart))).sum),
         F.fin (B + (l.map (fun s => codeWeight q s * ((colorYuv s.2).u.finPart))).sum),
         F.fin (C + (l.map (fun s => codeWeight q s * ((colorYuv s.2).v.finPart))).sum),
         F.fin (D + (l.map (codeWeight q)).sum)) := by
  induction l with
  | nil => intro A B C D _ _; simp
  | cons s rest ih =>
    intro A B C D hd hr
    have hds : 0 < XY.distR q (Area.center s.1) := hd s (List.mem_cons_self _ _)
    obtain ⟨a, b, c, hyuv, ha0, ha1, hb, hc⟩ := hr s (List.mem_cons_self _ _)
    have hne : XY.distR q (Area.center s.1) ^ (3 : ℕ) ≠ 0 := by positivity
    have hstep : checkColorStep q (F.fin A, F.fin B, F.fin C, F.fin D) s =
        (F.fin (A + codeWeight q s * a), F.fin (B + codeWeight q s * b),
         F.fin (C + codeWeight q s * c), F.fin (D + codeWeight q s)) := by
      unfold checkColorStep codeWeight
      rw [hyuv, F.div_fin_fin 1 _ hne]
      simp only [F.mul_fin_fin, F.add_fin_fin, one_div]
    rw [List.foldl_cons, hstep,
      ih (A + codeWeight q s * a) (B + codeWeight q s * b) (C + codeWeight q s * c)
        (D + codeWeight q s)
        (fun x hx => hd x (List.mem_cons_of_mem _ hx))
        (fun x hx => hr x (List.mem_cons_of_mem _ hx))]
    simp only [List.map_cons, List.sum_cons, hyuv, F.finPart, Prod.mk.injEq]
    refine ⟨?_, ?_, ?_, ?_⟩ <;> (congr 1; ring)

/-- C2 (amended): the claim states that `Background::check_color` returns
the weighted mean of the sample YUV colors with weights `1 / d^2`.  The
source raises the distance to the *third* power (`powi(3)`, with the comment
"powi to bias towards closer points").  With positive distances to every
sample center and in-range sample colors, `check_color` returns the
component-wise weighted mean with weights `1 / d^3`. -/
theorem c2_check_color_inverse_cube (bg : List (Area × Colorv)) (q : XY)
    (hne : bg ≠ [])
    (hd : ∀ s ∈ bg, 0 < XY.distR q (Area.center s.1))
    (hr : ∀ s ∈ bg, YuvInRange (colorYuv s.2)) :
    checkColor bg q = some (Colorv.yuv
      ⟨F.fin ((bg.map (fun s => codeWeight q s * ((colorYuv s.2).y.finPart))).sum /
          (bg.map (codeWeight q)).sum),
       F.fin ((bg.map (fun s => codeWeight q s * ((colorYuv s.2).u.finPart))).sum /
          (bg.map (codeWeight q)).sum),
       F.fin ((bg.map (fun s => codeWeight q s * ((colorYuv s.2).v.finPart))).sum /
          (bg.map (codeWeight q)).sum)⟩) := by
  have hwpos : ∀ s ∈ bg, 0 < codeWeight q s := by
    intro s hs
    have := hd s hs
    unfold codeWeight
    positivity
  have hSd : 0 < (bg.map (codeWeight q)).sum := by
    apply List.sum_pos
    · intro x hx
      obtain ⟨s, hs, rfl⟩ := List.mem_map.mp hx
      exact hwpos s hs
    · intro hmap
      exact hne (List.map_eq_nil_iff.mp hmap)
  have habs : ∀ (f : Area × Colorv → ℝ) (cb : ℝ),
      (∀ s ∈ bg, |f s| ≤ cb) →
      |(bg.map (fun s => codeWeight q s * f s)).sum / (bg.map (codeWeight q)).sum| ≤ cb := by
    intro f cb hfb
    rw [abs_div, abs_of_pos hSd, div_le_iff₀ hSd]
    calc |(bg.map (fun s => codeWeight q s * f s)).sum|
        ≤ cb * (bg.map (codeWeight q)).sum :=
          list_weighted_abs_le bg (codeWeight q) f cb (fun s hs => (hwpos s hs).le) hfb
      _ = cb * (bg.map (codeWeight q)).sum := rfl
  have hY0 : 0 ≤ (bg.map (fun s => codeWeight q s * ((colorYuv s.2).y.finPart))).sum /
      (bg.map (codeWeight q)).sum := by
    apply div_nonneg _ hSd.le
    apply List.sum_nonneg
    intro x hx
    obtain ⟨s, hs, rfl⟩ := List.mem_map.mp hx
    obtain ⟨a, b, c, hyuv, ha0, ha1, hb, hc⟩ := hr s hs
    rw [hyuv]
    simp only [F.finPart]
    exact mul_nonneg (hwpos s hs).le ha0
  have hY1 : (bg.map (fun s => codeWeight q s * ((colorYuv s.2).y.finPart))).sum /
      (bg.map (codeWeight q)).sum ≤ YUV_MAX_Y := by
    rw [yuvMaxY_eq]
    have := habs (fun s => ((colorYuv s.2).y.finPart)) 1 ?_
    · exact le_trans (le_abs_self _) this
    · intro s hs
      obtain ⟨a, b, c, hyuv, ha0, ha1, hb, hc⟩ := hr s hs
      show |(colorYuv s.2).y.finPart| ≤ 1
      rw [hyuv]
      simp only [F.finPart]
      rw [abs_of_nonneg ha0]
      exact ha1
  have hU : |(bg.map (fun s => codeWeight q s * ((colorYuv s.2).u.finPart))).sum /
      (bg.map (codeWeight q)).sum| ≤ YUV_MAX_U := by
    apply habs
    intro s hs
    obtain ⟨a, b, c, hyuv, ha0, ha1, hb, hc⟩ := hr s hs
    show |(colorYuv s.2).u.finPart| ≤ YUV_MAX_U
    rw [hyuv]
    simpa [F.finPart, YUV_MAX_U] using hb
  have hV : |(bg.map (fun s => codeWeight q s * ((colorYuv s.2).v.finPart))).sum /
      (bg.map (codeWeight q)).sum| ≤ YUV_MAX_V := by
    apply habs
    intro s hs
    obtain ⟨a, b, c, hyuv, ha0, ha1, hb, hc⟩ := hr s hs
    show |(colorYuv s.2).v.finPart| ≤ YUV_MAX_V
    rw [hyuv]
    simpa [F.finPart, YUV_MAX_V] using hc
  unfold checkColor
  rw [checkColor_fold_fin q bg 0 0 0 0 hd hr]
  simp only [zero_add]
  rw [F.div_fin_fin _ _ (ne_of_gt hSd), F.div_fin_fin _ _ (ne_of_gt hSd),
    F.div_fin_fin _ _ (ne_of_gt hSd),
    yuvNew_ok _ _ _ hY0 hY1 hU hV]

theorem distR_horizontal (b : ℕ) : XY.distR ⟨0, 0⟩ ⟨b, 0⟩ = b := by
  unfold XY.distR
  rw [show (((0 : ℕ) : ℝ) - ((b : ℕ) : ℝ)) ^ (2 : ℕ) + (((0 : ℕ) : ℝ) - ((0 : ℕ) : ℝ)) ^ (2 : ℕ)
      = (b : ℝ) ^ 2 by push_cast; ring]
  exact Real.sqrt_sq (Nat.cast_nonneg b)

/-- Witness for C2: a single sample at distance 3 with color `(1/2, 0, 0)`,
queried from the origin. -/
theorem c2_check_color_inverse_cube_witness :
    checkColor bgOneSample ⟨0, 0⟩ = some (Colorv.yuv
      ⟨F.fin ((bgOneSample.map
            (fun s => codeWeight ⟨0, 0⟩ s * ((colorYuv s.2).y.finPart))).sum /
          (bgOneSample.map (codeWeight ⟨0, 0⟩)).sum),
       F.fin ((bgOneSample.map
            (fun s => codeWeight ⟨0, 0⟩ s * ((colorYuv s.2).u.finPart))).sum /
          (bgOneSample.map (codeWeight ⟨0, 0⟩)).sum),
       F.fin ((bgOneSample.map
            (fun s => codeWeight ⟨0, 0⟩ s * ((colorYuv s.2).v.finPart))).sum /
          (bgOneSample.map (codeWeight ⟨0, 0⟩)).sum)⟩) :=
  c2_check_color_inverse_cube bgOneSample ⟨0, 0⟩ (by simp [bgOneSample])
    (by
      intro s hs
      simp only [bgOneSample, List.mem_singleton] at hs
      subst hs
      rw [show Area.center ⟨0, 3, 1, 1⟩ = ⟨3, 0⟩ from rfl, distR_horizontal]
      norm_num)
    (by
      intro s hs
      simp only [bgOneSample, List.mem_singleton] at hs
      subst hs
      exact ⟨1 / 2, 0, 0, rfl, by norm_num, by norm_num, by norm_num, by norm_num⟩)

/-- Counterexample for C2: two samples at distances 2 and 4 from the query
point, with sample Y channels 0 and 1.  The source computes the inverse-cube
weighted mean `1/9`, while the inverse-square weighted mean stated by the
claim is `1/5`. -/
theorem c2_inverse_square_cex :
    checkColor bgTwoSamples ⟨0, 0⟩ =
      some (Colorv.yuv ⟨F.fin (1 / 9), F.fin 0, F.fin 0⟩) ∧
    specEstimateYuv bgTwoSamples ⟨0, 0⟩ = (1 / 5, 0, 0) ∧
    ((1 : ℝ) / 9) ≠ 1 / 5 := by
  have hc2 : Area.center ⟨0, 2, 1, 1⟩ = (⟨2, 0⟩ : XY) := rfl
  have hc4 : Area.center ⟨0, 4, 1, 1⟩ = (⟨4, 0⟩ : XY) := rfl
  have hd : ∀ s ∈ bgTwoSamples, 0 < XY.distR ⟨0, 0⟩ (Area.center s.1) := by
    intro s hs
    simp only [bgTwoSamples, List.mem_cons, List.mem_singleton, List.not_mem_nil,
      or_false] at hs
    rcases hs with rfl | rfl
    · rw [hc2, distR_horizontal]; norm_num
    · rw [hc4, distR_horizontal]; norm_num
  have hr : ∀ s ∈ bgTwoSamples, YuvInRange (colorYuv s.2) := by
    intro s hs
    simp only [bgTwoSamples, List.mem_cons, List.mem_singleton, List.not_mem_nil,
      or_false] at hs
    rcases hs with rfl | rfl
    · exact ⟨0, 0, 0, rfl, by norm_num, by norm_num, by norm_num, by norm_num⟩
    · exact ⟨1, 0, 0, rfl, by norm_num, by norm_num, by norm_num, by norm_num⟩
  have e1 : (bgTwoSamples.map
      (fun s => codeWeight ⟨0, 0⟩ s * ((colorYuv s.2).y.finPart))).sum = 1 / 64 := by
    simp only [bgTwoSamples, List.map_cons, List.map_nil, List.sum_cons, List.sum_nil,
      codeWeight, colorYuv, F.finPart, hc2, hc4, distR_horizontal]
    norm_num
  have e2 : (bgTwoSamples.map
      (fun s => codeWeight ⟨0, 0⟩ s * ((colorYuv s.2).u.finPart))).sum = 0 := by
    simp only [bgTwoSamples, List.map_cons, List.map_nil, List.sum_cons, List.sum_nil,
      codeWeight, colorYuv, F.finPart, hc2, hc4, distR_horizontal]
    norm_num
  have e3 : (bgTwoSamples.map
      (fun s => codeWeight ⟨0, 0⟩ s * ((colorYuv s.2).v.finPart))).sum = 0 := by
    simp only [bgTwoSamples, List.map_cons, List.map_nil, List.sum_cons, List.sum_nil,
      codeWeight, colorYuv, F.finPart, hc2, hc4, distR_horizontal]
    norm_num
  have e4 : (bgTwoSamples.map (codeWeight ⟨0, 0⟩)).sum = 9 / 64 := by
    simp only [bgTwoSamples, List.map_cons, List.map_nil, List.sum_cons, List.sum_nil,
      codeWeight, hc2, hc4, distR_horizontal]
    norm_num
  refine ⟨?_, ?_, by norm_num⟩
  · unfold checkColor
    rw [checkColor_fold_fin ⟨0, 0⟩ bgTwoSamples 0 0 0 0 hd hr]
    simp only [zero_add, e1, e2, e3, e4]
    have hdiv1 : F.div (F.fin ((1 : ℝ) / 64)) (F.fin (9 / 64)) = F.fin (1 / 9) := by
      rw [F.div_fin_fin _ _ (by norm_num)]
      norm_num
    have hdiv0 : F.div (F.fin (0 : ℝ)) (F.fin (9 / 64)) = F.fin 0 := by
      rw [F.div_fin_fin _ _ (by norm_num)]
      norm_num
    rw [hdiv1, hdiv0,
      yuvNew_ok _ _ _ (by norm_num) (by rw [yuvMaxY_eq]; norm_num)
        (by norm_num [YUV_MAX_U]) (by norm_num [YUV_MAX_V])]
  · unfold specEstimateYuv
    simp only [bgTwoSamples, List.map_cons, List.map_nil, List.sum_cons, List.sum_nil,
      colorYuv, F.finPart, hc2, hc4, distR_horizontal]
    norm_num

theorem F.notFin_add_right (a b : F) (hb : F.NotFin b) : F.NotFin (F.add a b) := by
  rcases hb with rfl | rfl | rfl <;> cases a <;> simp [F.add, F.NotFin]

theorem F.notFin_add_left (a b : F) (ha : F.NotFin a) : F.NotFin (F.add a b) := by
  rcases ha with rfl | rfl | rfl <;> cases b <;> simp [F.add, F.NotFin]

theorem distR_nonneg (a b : XY) : 0 ≤ XY.distR a b := Real.sqrt_nonneg _

theorem F.notFin_mul_inf (y : F) : F.NotFin (F.mul F.inf y) := by
  cases y with
  | fin b =>
    simp only [F.mul]
    split_ifs <;> simp [F.NotFin]
  | inf => simp [F.mul, F.NotFin]
  | neginf => simp [F.mul, F.NotFin]
  | nan => simp [F.mul, F.NotFin]

theorem F.nonNegOrInf_weight (x : ℝ) (hx : 0 ≤ x) :
    F.NonNegOrInf (F.div (F.fin 1) (F.fin x)) := by
  simp only [F.div]
  by_cases h : x = 0
  · rw [if_pos h, if_neg (by norm_num : ¬(1 : ℝ) = 0), if_pos (by norm_num : (0 : ℝ) < 1)]
    exact Or.inl rfl
  · rw [if_neg h]
    exact Or.inr ⟨1 / x, by positivity, rfl⟩

theorem F.add_nonNegOrInf (a b : F) (ha : F.NonNegOrInf a) (hb : F.NonNegOrInf b) :
    F.NonNegOrInf (F.add a b) := by
  rcases ha with rfl | ⟨x, hx, rfl⟩ <;> rcases hb with rfl | ⟨y, hy, rfl⟩
  · exact Or.inl rfl
  · exact Or.inl rfl
  · exact Or.inl rfl
  · exact Or.inr ⟨x + y, by linarith, by simp [F.add]⟩

theorem F.add_inf_of_nonNeg (a : F) (ha : F.NonNegOrInf a) : F.add a F.inf = F.inf := by
  rcases ha with rfl | ⟨x, hx, rfl⟩ <;> simp [F.add]

theorem F.div_notFin_inf (a : F) (ha : F.NotFin a) : F.div a F.inf = F.nan := by
  rcases ha with rfl | rfl | rfl <;> simp [F.div]

theorem distR_self (q : XY) : XY.distR q q = 0 := by
  unfold XY.distR
  simp

theorem checkColor_fold_d_nonNeg (q : XY) (l : List (Area × Colorv)) :
    ∀ acc : F × F × F × F, F.NonNegOrInf acc.2.2.2 →
      F.NonNegOrInf ((l.foldl (checkColorStep q) acc)).2.2.2 := by
  induction l with
  | nil => intro acc h; simpa using h
  | cons s rest ih =>
    intro acc h
    rw [List.foldl_cons]
    apply ih
    show F.NonNegOrInf (F.add acc.2.2.2
      (F.div (F.fin 1) (F.fin (XY.distR q (Area.center s.1) ^ (3 : ℕ)))))
    exact F.add_nonNegOrInf _ _ h (F.nonNegOrInf_weight _ (pow_nonneg (distR_nonneg _ _) 3))

theorem checkColor_fold_preserve_nan (q : XY) (l : List (Area × Colorv)) :
    ∀ acc : F × F × F × F,
      F.NotFin acc.1 → F.NotFin acc.2.1 → F.NotFin acc.2.2.1 → acc.2.2.2 = F.inf →
      F.NotFin ((l.foldl (checkColorStep q) acc)).1 ∧
      F.NotFin ((l.foldl (checkColorStep q) acc)).2.1 ∧
      F.NotFin ((l.foldl (checkColorStep q) acc)).2.2.1 ∧
      ((l.foldl (checkColorStep q) acc)).2.2.2 = F.inf := by
  induction l with
  | nil =>
    intro acc h1 h2 h3 h4
    exact ⟨h1, h2, h3, h4⟩
  | cons s rest ih =>
    intro acc h1 h2 h3 h4
    rw [List.foldl_cons]
    apply ih
    · exact F.notFin_add_left _ _ h1
    · exact F.notFin_add_left _ _ h2
    · exact F.notFin_add_left _ _ h3
    · show F.add acc.2.2.2
        (F.div (F.fin 1) (F.fin (XY.distR q (Area.center s.1) ^ (3 : ℕ)))) = F.inf
      rw [h4]
      rcases F.nonNegOrInf_weight (XY.distR q (Area.center s.1) ^ (3 : ℕ))
          (pow_nonneg (distR_nonneg _ _) 3)
        with hw | ⟨x, hx, hw⟩
      · rw [hw]; rfl
      · rw [hw]; rfl

/-- C3 (amended): the claim states that when the query point coincides with
a sample center, `check_color` clamps the infinite weight and returns that
sample color exactly.  The source does not clamp: the weight is
`1.0 / 0.0 = +inf`, the accumulators become non-finite, each final division
is `NaN` (non-finite over `+inf`), and `YUV::new` accepts the `NaN`
channels, so `check_color` returns a YUV color all of whose channels are
`NaN` instead of the sample color. -/
theorem c3_check_color_center_nan (bg : List (Area × Colorv)) (q : XY)
    (h : ∃ s ∈ bg, Area.center s.1 = q) :
    checkColor bg q = some (Colorv.yuv ⟨F.nan, F.nan, F.nan⟩) := by
  obtain ⟨s0, hs0, hc⟩ := h
  obtain ⟨l1, l2, rfl⟩ := List.append_of_mem hs0
  simp only [checkColor, List.foldl_append, List.foldl_cons]
  have hD1 : F.NonNegOrInf
      ((l1.foldl (checkColorStep q) (F.fin 0, F.fin 0, F.fin 0, F.fin 0))).2.2.2 :=
    checkColor_fold_d_nonNeg q l1 _ (Or.inr ⟨0, le_refl 0, rfl⟩)
  have hdist : F.div (F.fin 1) (F.fin (XY.distR q (Area.center s0.1) ^ (3 : ℕ))) = F.inf := by
    rw [hc, distR_self, show ((0 : ℝ)) ^ (3 : ℕ) = 0 by norm_num]
    simp only [F.div]
    norm_num
  set acc1 := l1.foldl (checkColorStep q) (F.fin 0, F.fin 0, F.fin 0, F.fin 0) with hacc1
  have hy : F.NotFin ((checkColorStep q acc1 s0)).1 := by
    show F.NotFin (F.add acc1.1 (F.mul
      (F.div (F.fin 1) (F.fin (XY.distR q (Area.center s0.1) ^ (3 : ℕ)))) (colorYuv s0.2).y))
    rw [hdist]
    exact F.notFin_add_right _ _ (F.notFin_mul_inf _)
  have hu : F.NotFin ((checkColorStep q acc1 s0)).2.1 := by
    show F.NotFin (F.add acc1.2.1 (F.mul
      (F.div (F.fin 1) (F.fin (XY.distR q (Area.center s0.1) ^ (3 : ℕ)))) (colorYuv s0.2).u))
    rw [hdist]
    exact F.notFin_add_right _ _ (F.notFin_mul_inf _)
  have hv : F.NotFin ((checkColorStep q acc1 s0)).2.2.1 := by
    show F.NotFin (F.add acc1.2.2.1 (F.mul
      (F.div (F.fin 1) (F.fin (XY.distR q (Area.center s0.1) ^ (3 : ℕ)))) (colorYuv s0.2).v))
    rw [hdist]
    exact F.notFin_add_right _ _ (F.notFin_mul_inf _)
  have hdd : ((checkColorStep q acc1 s0)).2.2.2 = F.inf := by
    show F.add acc1.2.2.2
      (F.div (F.fin 1) (F.fin (XY.distR q (Area.center s0.1) ^ (3 : ℕ)))) = F.inf
    rw [hdist]
    exact F.add_inf_of_nonNeg _ hD1
  obtain ⟨ry, ru, rv, rd⟩ :=
    checkColor_fold_preserve_nan q l2 (checkColorStep q acc1 s0) hy hu hv hdd
  rw [show F.div ((l2.foldl (checkColorStep q) (checkColorStep q acc1 s0))).1
      ((l2.foldl (checkColorStep q) (checkColorStep q acc1 s0))).2.2.2 = F.nan by
        rw [rd]; exact F.div_notFin_inf _ ry,
    show F.div ((l2.foldl (checkColorStep q) (checkColorStep q acc1 s0))).2.1
      ((l2.foldl (checkColorStep q) (checkColorStep q acc1 s0))).2.2.2 = F.nan by
        rw [rd]; exact F.div_notFin_inf _ ru,
    show F.div ((l2.foldl (checkColorStep q) (checkColorStep q acc1 s0))).2.2.1
      ((l2.foldl (checkColorStep q) (checkColorStep q acc1 s0))).2.2.2 = F.nan by
        rw [rd]; exact F.div_notFin_inf _ rv,
    yuvNew_nan]

/-- Witness for C3: one sample centered at `(5,5)` with color `(1/2,0,0)`,
queried exactly at `(5,5)`. -/
theorem c3_check_color_center_nan_witness :
    checkColor bgCenterSample ⟨5, 5⟩ = some (Colorv.yuv ⟨F.nan, F.nan, F.nan⟩) :=
  c3_check_color_center_nan bgCenterSample ⟨5, 5⟩
    ⟨(⟨5, 5, 1, 1⟩, Colorv.yuv ⟨F.fin (1 / 2), F.fin 0, F.fin 0⟩),
      by simp [bgCenterSample], by decide⟩

/-- Counterexample for C3: with a single sample centered at the query point,
`check_color` does not return that sample color `(1/2, 0, 0)` (it returns
all-NaN channels instead), refuting the claimed clamping. -/
theorem c3_no_clamp_cex :
    checkColor bgCenterSample ⟨5, 5⟩ ≠
      some (Colorv.yuv ⟨F.fin (1 / 2), F.fin 0, F.fin 0⟩) := by
  have hdist : F.div (F.fin 1)
      (F.fin (XY.distR ⟨5, 5⟩ (Area.center ⟨5, 5, 1, 1⟩) ^ (3 : ℕ))) = F.inf := by
    rw [show Area.center ⟨5, 5, 1, 1⟩ = (⟨5, 5⟩ : XY) from rfl, distR_self,
      show ((0 : ℝ)) ^ (3 : ℕ) = 0 by norm_num]
    simp only [F.div]
    norm_num
  have h1 : F.mul F.inf (F.fin ((1 : ℝ) / 2)) = F.inf := by
    simp only [F.mul]
    rw [if_neg (by norm_num : ¬((1 : ℝ) / 2) = 0), if_pos (by norm_num : (0 : ℝ) < 1 / 2)]
  have h2 : F.mul F.inf (F.fin (0 : ℝ)) = F.nan := by
    simp [F.mul]
  have heval : checkColor bgCenterSample ⟨5, 5⟩ =
      some (Colorv.yuv ⟨F.nan, F.nan, F.nan⟩) := by
    simp only [checkColor, bgCenterSample, List.foldl_cons, List.foldl_nil,
      checkColorStep, colorYuv]
    rw [hdist, h1, h2,
      show F.add (F.fin 0) F.inf = F.inf from rfl,
      show F.add (F.fin 0) F.nan = F.nan from rfl,
      show F.div F.inf F.inf = F.nan from rfl,
      show F.div F.nan F.inf = F.nan from rfl,
      yuvNew_nan]
  rw [heval]
  intro hcontra
  simp at hcontra

/-- C10 (amended): the claim states that any input with a NaN channel passes
all range checks of `YUV::new`.  A NaN channel does pass its own checks
(IEEE comparisons with NaN are false), so `YUV::new` succeeds whenever every
channel is either NaN or a finite in-range value; in particular all-NaN
input is accepted, so the `unwrap` in `check_color` does not panic when the
computed components are NaN.  But a NaN channel does not disable the checks
of the other channels: a finite out-of-range channel still causes an error
(see the counterexample). -/
theorem c10_yuv_new_accepts_nan (y u v : F)
    (hy : y = F.nan ∨ ∃ a : ℝ, y = F.fin a ∧ 0 ≤ a ∧ a ≤ YUV_MAX_Y)
    (hu : u = F.nan ∨ ∃ a : ℝ, u = F.fin a ∧ |a| ≤ YUV_MAX_U)
    (hv : v = F.nan ∨ ∃ a : ℝ, v = F.fin a ∧ |a| ≤ YUV_MAX_V) :
    yuvNew y u v = Except.ok ⟨y, u, v⟩ := by
  have g0 : ¬ F.lt y (F.fin 0) := by
    rcases hy with rfl | ⟨a, rfl, h0, h1⟩
    · exact fun h => h
    · exact not_lt.mpr h0
  have g1 : ¬ F.lt (F.fin YUV_MAX_Y) y := by
    rcases hy with rfl | ⟨a, rfl, h0, h1⟩
    · exact fun h => h
    · exact not_lt.mpr h1
  have g2 : ¬ F.lt (F.fin YUV_MAX_U) (F.abs u) := by
    rcases hu with rfl | ⟨a, rfl, h⟩
    · exact fun h => h
    · exact not_lt.mpr h
  have g3 : ¬ F.lt (F.fin YUV_MAX_V) (F.abs v) := by
    rcases hv with rfl | ⟨a, rfl, h⟩
    · exact fun h => h
    · exact not_lt.mpr h
  unfold yuvNew
  rw [if_neg g0, if_neg g1, if_neg g2, if_neg g3]

/-- Witness for C10: the all-NaN triple is accepted by `YUV::new`. -/
theorem c10_yuv_new_accepts_nan_witness :
    yuvNew F.nan F.nan F.nan = Except.ok ⟨F.nan, F.nan, F.nan⟩ :=
  c10_yuv_new_accepts_nan F.nan F.nan F.nan (Or.inl rfl) (Or.inl rfl) (Or.inl rfl)

/-- Counterexample for C10: with `y = NaN` but `u = 1` (out of range), the
`u` range check fires and `YUV::new` returns an error, so it is not the case
that any input containing a NaN passes all range checks. -/
theorem c10_nan_with_out_of_range_cex :
    yuvNew F.nan (F.fin 1) (F.fin 0) = Except.error "u cannot be above the max" := by
  have hcond : F.lt (F.fin YUV_MAX_U) (F.abs (F.fin 1)) := by
    show YUV_MAX_U < |(1 : ℝ)|
    norm_num [YUV_MAX_U]
  unfold yuvNew
  rw [if_neg (show ¬ F.lt F.nan (F.fin 0) from fun h => h),
    if_neg (show ¬ F.lt (F.fin YUV_MAX_Y) F.nan from fun h => h),
    if_pos hcond]

unseal Rat.mul Rat.add Rat.sub Rat.ofScientific Rat.inv in
theorem yuvOfRgb_white : yuvOfRgb ⟨255, 255, 255⟩ = (1, 0, 0) := by decide

theorem colorYuv_white :
    colorYuv (Colorv.rgb ⟨255, 255, 255⟩) = ⟨F.fin 1, F.fin 0, F.fin 0⟩ := by
  simp only [colorYuv, yuvOfRgb_white, yuvFinOfQ]
  norm_num

theorem rgbOfYuvF_white :
    rgbOfYuvF ⟨F.fin 1, F.fin 0, F.fin 0⟩ = ⟨255, 255, 255⟩ := by
  simp only [rgbOfYuvF, F.mul_fin_fin, F.add_fin_fin, F.sub_fin_fin, toU8F]
  norm_num [toU8R]

theorem checkColor_white_sample :
    checkColor bgWhiteSample ⟨0, 0⟩ = some (Colorv.yuv ⟨F.fin 1, F.fin 0, F.fin 0⟩) := by
  have hcen : Area.center ⟨0, 3, 1, 1⟩ = (⟨3, 0⟩ : XY) := by decide
  have hd : ∀ s ∈ bgWhiteSample, 0 < XY.distR ⟨0, 0⟩ (Area.center s.1) := by
    intro s hs
    simp only [bgWhiteSample, List.mem_singleton] at hs
    subst hs
    rw [hcen, distR_horizontal]
    norm_num
  have hr : ∀ s ∈ bgWhiteSample, YuvInRange (colorYuv s.2) := by
    intro s hs
    simp only [bgWhiteSample, List.mem_singleton] at hs
    subst hs
    exact ⟨1, 0, 0, colorYuv_white, by norm_num, by norm_num, by norm_num, by norm_num⟩
  have e1 : (bgWhiteSample.map
      (fun s => codeWeight ⟨0, 0⟩ s * ((colorYuv s.2).y.finPart))).sum = 1 / 27 := by
    simp only [bgWhiteSample, List.map_cons, List.map_nil, List.sum_cons, List.sum_nil,
      codeWeight, colorYuv_white, F.finPart, hcen, distR_horizontal]
    norm_num
  have e2 : (bgWhiteSample.map
      (fun s => codeWeight ⟨0, 0⟩ s * ((colorYuv s.2).u.finPart))).sum = 0 := by
    simp only [bgWhiteSample, List.map_cons, List.map_nil, List.sum_cons, List.sum_nil,
      codeWeight, colorYuv_white, F.finPart, hcen, distR_horizontal]
    norm_num
  have e3 : (bgWhiteSample.map
      (fun s => codeWeight ⟨0, 0⟩ s * ((colorYuv s.2).v.finPart))).sum = 0 := by
    simp only [bgWhiteSample, List.map_cons, List.map_nil, List.sum_cons, List.sum_nil,
      codeWeight, colorYuv_white, F.finPart, hcen, distR_horizontal]
    norm_num
  have e4 : (bgWhiteSample.map (codeWeight ⟨0, 0⟩)).sum = 1 / 27 := by
    simp only [bgWhiteSample, List.map_cons, List.map_nil, List.sum_cons, List.sum_nil,
      codeWeight, hcen, distR_horizontal]
    norm_num
  unfold checkColor
  rw [checkColor_fold_fin ⟨0, 0⟩ bgWhiteSample 0 0 0 0 hd hr]
  simp only [zero_add, e1, e2, e3, e4]
  have hdiv1 : F.div (F.fin ((1 : ℝ) / 27)) (F.fin (1 / 27)) = F.fin 1 := by
    rw [F.div_fin_fin _ _ (by norm_num)]
    norm_num
  have hdiv0 : F.div (F.fin (0 : ℝ)) (F.fin ((1 : ℝ) / 27)) = F.fin 0 := by
    rw [F.div_fin_fin _ _ (by norm_num)]
    norm_num
  rw [hdiv1, hdiv0,
    yuvNew_ok _ _ _ (by norm_num) (by rw [yuvMaxY_eq]) (by norm_num [YUV_MAX_U])
      (by norm_num [YUV_MAX_V])]

/-- C4: the claim states that `BackgroundDifference::new` guards a zero
channel maximum by substituting 1, making every normalized value 0 for a
channel with no positive differences.  The source has no guard: on a 1 by 1
white image whose background sample is also white, every raw LAB difference
is exactly 0, every channel maximum stays 0, and the final division is the
IEEE `0.0 / 0.0 = NaN`, so every normalized difference is NaN (which also
contradicts the `[-1, 1]` range comments on the struct fields). -/
theorem c4_background_difference_nan :
    backgroundDifference whiteImg1 bgWhiteSample = some [[(F.nan, F.nan, F.nan)]] := by
  have hcell : bgDiffCell whiteImg1 bgWhiteSample 0 0 = some (0, 0, 0) := by
    unfold bgDiffCell
    rw [checkColor_white_sample]
    simp only [colorLab, rgbOfYuvF_white, whiteImg1, PX.toRgb, whitePX]
    simp [sub_self]
  have hraw : bgDiffRaw whiteImg1 bgWhiteSample = some [[(0, 0, 0)]] := by
    unfold bgDiffRaw
    rw [show whiteImg1.width = 1 from rfl, show whiteImg1.height = 1 from rfl,
      show List.range 1 = [0] from rfl]
    simp [List.mapM.loop, hcell]
  unfold backgroundDifference
  rw [hraw]
  have hmax : bgDiffMax [[(0 : ℝ × ℝ × ℝ)]] = (0 : ℝ × ℝ × ℝ) := by
    simp [bgDiffMax, maxUpd]
  have hdivnan : F.div (F.fin (0 : ℝ)) (F.fin (0 : ℝ)) = F.nan := by
    simp [F.div]
  simp [hmax, hdivnan]
